import Mathlib

/-!
Verification development for a freestanding FAT32 reader with a SLAB
allocator (Rust sources: `src/allocator/slab.rs`, `src/file_system.rs`,
`src/file_system/interface.rs`).

The Rust code is shallowly embedded:
machine integers (`u8`/`u16`/`u32`/`usize`) become `Nat`, with an explicit
`% 2^w` at the few places where wrap-around is conceivable; raw pointers
become `Nat` addresses; fallible code returns `Option`/`Except`, where the
outermost `Option.none` / `Except.error msg` models a Rust `panic!` (an
unrecoverable abort), and an inner `Except String` models a Rust
`Result<_, &str>` (a recoverable tagged error).  A `Result` of
`RunResult` additionally has a `div` outcome that models non-termination
(the cluster-chain walk of `read_file` is the only loop that need not
terminate; it gets an explicit fuel argument).

The intrusive circular doubly-linked lists of the allocator
(`ListNode` rings) are modelled as Lean lists of page addresses, in ring
order starting at `head.next`; `list_add` is cons at the front, `list_del`
removes the address from whatever ring holds it, `list_empty` is emptiness
of that list, and `head.next` is the head of the list.
-/

namespace SlabAlloc

/-- Constant `PAGE_SIZE` from `slab.rs`. -/
def PAGE_SIZE : Nat := 4096

/-- Constant `MAX_SLAB_SIZE` from `slab.rs`. -/
def MAX_SLAB_SIZE : Nat := 2048

/-- Constant `MAX_CLASSES` from `slab.rs`. -/
def MAX_CLASSES : Nat := 9

/-- Rust `size_of::<Slab>()` for
`#[repr(C)] struct Slab { list: ListNode, s_mem: *mut u8, free: BufCtl, inuse: usize }`
on x86-64: `list` occupies bytes 0..16 (two pointers), `s_mem` 16..24,
`free` (a `u32`) 24..28, then 4 bytes of padding so that the `usize`
field `inuse` sits at 32..40; total 40 bytes. -/
def SIZEOF_SLAB : Nat := 40

/-- Rust `size_of::<BufCtl>()`: a `#[repr(transparent)]` `u32`. -/
def SIZEOF_BUFCTL : Nat := 4

/-- `BufCtl::END = u32::MAX`, the free-chain terminator. -/
def BUFCTL_END : Nat := 4294967295

/-- The `CACHE_NAMES` table from `slab.rs`. -/
def CACHE_NAMES : List String :=
  ["size-8", "size-16", "size-32", "size-64", "size-128",
   "size-256", "size-512", "size-1024", "size-2048"]

/-- Fuel-driven helper for `trailingZeros` (structural recursion so that the
kernel can evaluate it). -/
def tzGo : Nat → Nat → Nat
  | 0, _ => 0
  | fuel + 1, n => if n % 2 = 1 then 0 else tzGo fuel (n / 2) + 1

/-- Rust `usize::trailing_zeros` (64-bit): number of trailing zero bits;
`trailing_zeros(0) = 64`. -/
def trailingZeros (n : Nat) : Nat := tzGo 64 n

/-- Fuel-driven helper for `nextPow2`. -/
def np2Go (target : Nat) : Nat → Nat → Nat
  | 0, p => p
  | fuel + 1, p => if target ≤ p then p else np2Go target fuel (2 * p)

/-- Rust `usize::next_power_of_two`: the least power of two `≥ n`
(`0` and `1` both give `1`). -/
def nextPow2 (n : Nat) : Nat := np2Go n n 1

/-- Rust `(x + align - 1) & !(align - 1)` for the power-of-two
`align = align_of::<usize>() = 8`, used by `cache_grow` to align the
object region. -/
def alignUp (x a : Nat) : Nat := (x + a - 1) / a * a

/-- The in-memory contents of one slab page: the `Slab` header fields
(`s_mem`, `free`, `inuse`) plus the bufctl array that follows the header
on the page.  The embedded `list` node is represented by the page address
appearing in one of the owning cache's three ring lists. -/
structure SlabPage where
  s_mem : Nat
  free : Nat
  inuse : Nat
  bufctl : List Nat
deriving Repr, DecidableEq

/-- The `Cache` struct: three slab rings (`slabs_full`, `slabs_partial`,
`slabs_free`, each modelled as the list of member page addresses in ring
order from `head.next`), the object size, the object count per slab and
the cache name. -/
structure Cache where
  slabs_full : List Nat
  slabs_partial : List Nat
  slabs_free : List Nat
  obj_size : Nat
  num : Nat
  name : String
deriving Repr, DecidableEq

/-- Projection to the full-slabs ring of a `Cache`. -/
def fullList : Cache → List Nat
  | ⟨f, _, _, _, _, _⟩ => f

/-- Projection to the partially-filled-slabs ring of a `Cache`. -/
def partList : Cache → List Nat
  | ⟨_, p, _, _, _, _⟩ => p

/-- Projection to the free-slabs ring of a `Cache`. -/
def freeList : Cache → List Nat
  | ⟨_, _, fr, _, _, _⟩ => fr

/-- Projection to the object size of a `Cache`. -/
def objSize : Cache → Nat
  | ⟨_, _, _, o, _, _⟩ => o

/-- Projection to the per-slab object count of a `Cache`. -/
def numObjs : Cache → Nat
  | ⟨_, _, _, _, n, _⟩ => n

/-- Projection to the name of a `Cache`. -/
def cacheName : Cache → String
  | ⟨_, _, _, _, _, nm⟩ => nm

/-- The state of the `SlabAllocator` after `init`: the `PageAllocator`
cursor (`page_next`, `page_end`), the `node_caches` array
(`MAX_CLASSES` optional caches; Rust stores each `Cache` in a freshly
allocated page and keeps a raw pointer, the model stores the record
inline and still charges the page to the bump allocator), and the map
from slab page base address to the page's contents. -/
structure AllocState where
  page_next : Nat
  page_end : Nat
  node_caches : List (Option Cache)
  slabs : List (Nat × SlabPage)
deriving Repr, DecidableEq

/-- `SlabAllocator::new()` followed by `init(heap_start, heap_size)`:
the bump cursor covers `[heap_start, heap_start + heap_size)` and no
cache exists yet. -/
def initState (heap_start heap_size : Nat) : AllocState :=
  ⟨heap_start, heap_start + heap_size, List.replicate MAX_CLASSES none, []⟩

/-- `PageAllocator::alloc_pages(num)`: returns the current cursor and
advances it by `num * PAGE_SIZE`, or `none` when that would pass the heap
end (the Rust function returns `Option`; the panics on `None` live in the
callers). -/
def allocPages (st : AllocState) (num : Nat) : Option (AllocState × Nat) :=
  let bytes := num * PAGE_SIZE
  if st.page_next + bytes > st.page_end then none
  else some ({ st with page_next := st.page_next + bytes }, st.page_next)

/-- Look up the contents of the slab page based at `addr`. -/
def lookupSlab (st : AllocState) (addr : Nat) : Option SlabPage :=
  (st.slabs.find? (fun p => p.1 = addr)).map (fun p => p.2)

/-- Overwrite the contents of the slab page based at `addr` (page base
addresses are unique keys: the bump allocator never hands a page out
twice). -/
def setSlab (st : AllocState) (addr : Nat) (sp : SlabPage) : AllocState :=
  { st with slabs := st.slabs.map (fun p => if p.1 = addr then (addr, sp) else p) }

/-- Store cache `c` at class index `idx`. -/
def setCache (st : AllocState) (idx : Nat) (c : Cache) : AllocState :=
  { st with node_caches := st.node_caches.set idx (some c) }

/-- The size-class index computed by `get_or_create_cache`:
`(size.trailing_zeros() as usize).saturating_sub(3)` — note that the Rust
code takes the trailing zeros of the RAW requested size. -/
def cacheIndex (size : Nat) : Nat := trailingZeros size - 3

/-- `SlabAllocator::get_or_create_cache(size)`.  Outer `none` models a
panic: the `assert!(size > 0)`, an out-of-bounds `node_caches[idx]`, or
`expect("OOM Cache")`.  Returns the updated state and the class index.
`obj_size = size.max(8).next_power_of_two()` and
`num = (PAGE_SIZE - size_of::<Slab>()) / (obj_size + size_of::<BufCtl>())`
are computed only when the cache is created; an existing cache is reused
unchanged, whatever size it was created for. -/
def getOrCreateCache (st : AllocState) (size : Nat) : Option (AllocState × Nat) :=
  let idx := cacheIndex size
  if size = 0 then none
  else
    match st.node_caches.get? idx with
    | none => none
    | some (some _) => some (st, idx)
    | some none =>
      match allocPages st 1 with
      | none => none
      | some (st1, _cachePage) =>
        let obj_size := nextPow2 (max size 8)
        let num := (PAGE_SIZE - SIZEOF_SLAB) / (obj_size + SIZEOF_BUFCTL)
        let name := CACHE_NAMES.getD idx "size-large"
        some (setCache st1 idx ⟨[], [], [], obj_size, num, name⟩, idx)

/-- The initial bufctl free chain written by `cache_grow`:
`0 → 1 → … → num−1 → END`, i.e. entry `i` holds `i+1`, the last holds
`END`. -/
def initBufctl (num : Nat) : List Nat :=
  (List.range num).map (fun i => if i + 1 = num then BUFCTL_END else i + 1)

/-- `cache_grow(page_alloc, cache)`: take one page (`expect("OOM Slab")`
panics on `None`, modelled by the outer `none`), write a fresh slab
header and bufctl chain on it, set
`s_mem = align_up(page + size_of::<Slab>() + num * size_of::<BufCtl>, 8)`,
and push the page at the front of the cache's free ring. -/
def cacheGrow (st : AllocState) (idx : Nat) : Option AllocState :=
  match st.node_caches.get? idx with
  | some (some c) =>
    match allocPages st 1 with
    | none => none
    | some (st1, page) =>
      let obj_start := alignUp (page + SIZEOF_SLAB + numObjs c * SIZEOF_BUFCTL) 8
      let sp : SlabPage := ⟨obj_start, 0, 0, initBufctl (numObjs c)⟩
      let c' : Cache :=
        ⟨fullList c, partList c, page :: freeList c, objSize c, numObjs c, cacheName c⟩
      some (setCache { st1 with slabs := (page, sp) :: st1.slabs } idx c')
  | _ => none

/-- `GlobalAlloc::alloc` for `Locked<SlabAllocator>` (the lock only
serialises calls; the model is the locked body).  Requests larger than
`MAX_SLAB_SIZE` go straight to the page allocator and return the null
pointer `0` on exhaustion.  Small requests pick a slab — the front of
`slabs_partial` if any, otherwise the front of `slabs_free` after growing
the cache when that ring is empty, moving that slab to `slabs_partial` —
then pop the slab's free chain and move the slab to `slabs_full` when it
fills up.  Outer `none` models a panic. -/
def alloc (st : AllocState) (size : Nat) : Option (AllocState × Nat) :=
  if size > MAX_SLAB_SIZE then
    let num_pages := (size + PAGE_SIZE - 1) / PAGE_SIZE
    match allocPages st num_pages with
    | none => some (st, 0)
    | some (st1, p) => some (st1, p)
  else
    match getOrCreateCache st size with
    | none => none
    | some (st1, idx) =>
      match st1.node_caches.get? idx with
      | some (some c) =>
        let pick : Option (AllocState × Nat) :=
          match partList c with
          | node :: _ => some (st1, node)
          | [] =>
            match (if freeList c = [] then cacheGrow st1 idx else some st1) with
            | none => none
            | some st2 =>
              match st2.node_caches.get? idx with
              | some (some c2) =>
                match freeList c2 with
                | [] => none
                | node :: restFree =>
                  let c3 : Cache :=
                    ⟨fullList c2, node :: partList c2, restFree,
                     objSize c2, numObjs c2, cacheName c2⟩
                  some (setCache st2 idx c3, node)
              | _ => none
        match pick with
        | none => none
        | some (st3, node) =>
          match lookupSlab st3 node, st3.node_caches.get? idx with
          | some sp, some (some c4) =>
            let obj_idx := sp.free
            let obj := sp.s_mem + obj_idx * objSize c4
            let sp' : SlabPage := ⟨sp.s_mem, sp.bufctl.getD obj_idx 0, sp.inuse + 1, sp.bufctl⟩
            let st4 := setSlab st3 node sp'
            if sp.inuse + 1 = numObjs c4 then
              let c5 : Cache :=
                ⟨node :: (fullList c4).erase node,
                 (partList c4).erase node, (freeList c4).erase node,
                 objSize c4, numObjs c4, cacheName c4⟩
              some (setCache st4 idx c5, obj)
            else some (st4, obj)
          | _, _ => none
      | _ => none

/-- `GlobalAlloc::dealloc`: a no-op for large or null pointers; otherwise
recover the cache from the size class, recover the slab header by masking
the pointer down to its page base (`ptr & !(PAGE_SIZE-1)`), push the
object index back on the slab's free chain and decrement `inuse`; then —
in this order — if `inuse + 1 == num` (the slab was full) move it to
`slabs_partial`, ELSE if `inuse == 0` move it to `slabs_free`.  The model
mirrors that `if`/`else if` exactly.  Outer `none` models a panic or a
wild dereference outside any slab page. -/
def dealloc (st : AllocState) (ptr size : Nat) : Option AllocState :=
  if size > MAX_SLAB_SIZE ∨ ptr = 0 then some st
  else
    match getOrCreateCache st size with
    | none => none
    | some (st1, idx) =>
      match st1.node_caches.get? idx with
      | some (some c) =>
        let slabAddr := ptr - ptr % PAGE_SIZE
        match lookupSlab st1 slabAddr with
        | none => none
        | some sp =>
          let obj_idx := (ptr - sp.s_mem) / objSize c
          let inuseAfter := sp.inuse - 1
          let sp' : SlabPage := ⟨sp.s_mem, obj_idx, inuseAfter, sp.bufctl.set obj_idx sp.free⟩
          let st2 := setSlab st1 slabAddr sp'
          if inuseAfter + 1 = numObjs c then
            let c' : Cache :=
              ⟨(fullList c).erase slabAddr,
               slabAddr :: (partList c).erase slabAddr, (freeList c).erase slabAddr,
               objSize c, numObjs c, cacheName c⟩
            some (setCache st2 idx c')
          else if inuseAfter = 0 then
            let c' : Cache :=
              ⟨(fullList c).erase slabAddr,
               (partList c).erase slabAddr, slabAddr :: (freeList c).erase slabAddr,
               objSize c, numObjs c, cacheName c⟩
            some (setCache st2 idx c')
          else some st2
      | _ => none

/-- Decidable check of the partition property claimed for every cache:
every slab in `slabs_full` has `inuse = num`, every slab in
`slabs_partial` has `0 < inuse < num`, and every slab in `slabs_free` has
`inuse = 0`. -/
def cachePartitionOk (st : AllocState) : Bool :=
  st.node_caches.all (fun oc =>
    match oc with
    | none => true
    | some c =>
      (fullList c).all (fun a =>
        match lookupSlab st a with
        | some sp => sp.inuse = numObjs c
        | none => false) &&
      (partList c).all (fun a =>
        match lookupSlab st a with
        | some sp => decide (0 < sp.inuse) && decide (sp.inuse < numObjs c)
        | none => false) &&
      (freeList c).all (fun a =>
        match lookupSlab st a with
        | some sp => sp.inuse = 0
        | none => false))

/-- The two-call trace `alloc(2048); dealloc(p, 2048)` on a freshly
initialised allocator (heap of 16 pages at the page-aligned address
`0x100000`). -/
def c1FinalState : Option AllocState :=
  (alloc (initState 1048576 65536) 2048).bind (fun p => dealloc p.1 p.2 2048)

/-- Size-class selection as worded by the claim and the spec:
`idx = max(0, trailing_zeros(size_rounded_up) - 3)` with
`size_rounded_up = max(8, next_pow2(size))`.  Stated only for comparison
with `cacheIndex`, which is what the code computes. -/
def claimSizeClassIndex (size : Nat) : Nat := trailingZeros (max 8 (nextPow2 size)) - 3

/-- The two-call trace `alloc(8); alloc(12)` on a freshly initialised
allocator; returns the final state and the two returned pointers. -/
def c2Trace : Option (AllocState × Nat × Nat) :=
  (alloc (initState 1048576 65536) 8).bind (fun p1 =>
    (alloc p1.1 12).map (fun p2 => (p2.1, p1.2, p2.2)))

end SlabAlloc

namespace Fat32

/-- UTF-8 encoding of one Unicode scalar value (the standard 1–4 byte
encoding).  Rust `String`s are modelled throughout as their UTF-8 byte
sequences (`List Nat`), which is their actual representation; two Rust
strings are equal iff their byte lists are. -/
def utf8EncodeChar (c : Nat) : List Nat :=
  if c < 128 then [c]
  else if c < 2048 then [192 + c / 64, 128 + c % 64]
  else if c < 65536 then [224 + c / 4096, 128 + c / 64 % 64, 128 + c % 64]
  else [240 + c / 262144, 128 + c / 4096 % 64, 128 + c / 64 % 64, 128 + c % 64]

/-- UTF-8 encoding of a sequence of scalar values. -/
def utf8Encode (s : List Nat) : List Nat := s.flatMap utf8EncodeChar

/-- The UTF-8 bytes of one Lean `Char` (a Unicode scalar value, exactly a
Rust `char`). -/
def charBytes (c : Char) : List Nat := utf8EncodeChar c.toNat

/-- The UTF-8 bytes of a Lean string literal, used to embed Rust string
literals and `&str` path segments. -/
def strBytes (s : String) : List Nat := s.data.flatMap charBytes

/-- Helper: a UTF-8 continuation byte (`0x80..0xBF`). -/
def contByte (b : Nat) : Bool := decide (128 ≤ b ∧ b ≤ 191)

/-- Rust `core::str::from_utf8` / `String::from_utf8` validity: strict
UTF-8 — no overlong forms, no surrogates, nothing above `U+10FFFF`. -/
def utf8Valid : List Nat → Bool
  | [] => true
  | b :: rest =>
    if b < 128 then utf8Valid rest
    else if b < 194 then false
    else if b < 224 then
      match rest with
      | b1 :: r => contByte b1 && utf8Valid r
      | [] => false
    else if b < 240 then
      match rest with
      | b1 :: b2 :: r =>
        (if b = 224 then decide (160 ≤ b1 ∧ b1 ≤ 191)
         else if b = 237 then decide (128 ≤ b1 ∧ b1 ≤ 159)
         else contByte b1) && contByte b2 && utf8Valid r
      | _ => false
    else if b < 245 then
      match rest with
      | b1 :: b2 :: b3 :: r =>
        (if b = 240 then decide (144 ≤ b1 ∧ b1 ≤ 191)
         else if b = 244 then decide (128 ≤ b1 ∧ b1 ≤ 143)
         else contByte b1) && contByte b2 && contByte b3 && utf8Valid r
      | _ => false
    else false

/-- Rust `char::decode_utf16` / `String::from_utf16`: decode a list of
UTF-16 code units into scalar values; `none` on an unpaired surrogate. -/
def utf16Decode : List Nat → Option (List Nat)
  | [] => some []
  | u :: rest =>
    if u < 55296 ∨ 57344 ≤ u then (utf16Decode rest).map (fun s => u :: s)
    else if u < 56320 then
      match rest with
      | [] => none
      | l :: rest2 =>
        if 56320 ≤ l ∧ l < 57344 then
          (utf16Decode rest2).map (fun s => (65536 + (u - 55296) * 1024 + (l - 56320)) :: s)
        else none
    else none

/-- UTF-16 encoding of one scalar value (one unit below `0x10000`, a
surrogate pair above). -/
def utf16EncodeChar (c : Nat) : List Nat :=
  if c < 65536 then [c]
  else [55296 + (c - 65536) / 1024, 56320 + (c - 65536) % 1024]

/-- UTF-16 encoding of a sequence of scalar values. -/
def utf16Encode (s : List Nat) : List Nat := s.flatMap utf16EncodeChar

/-- Outcome of running a piece of code that may fail to terminate:
`div` models non-termination (fuel exhaustion), `panic` a Rust `panic!`,
`ret` a normal return. -/
inductive RunResult (α : Type) where
  | div : RunResult α
  | panic : String → RunResult α
  | ret : α → RunResult α
deriving Repr, DecidableEq

/-- Decidable equality for `Except`, used to evaluate embedded runs with
`decide`. -/
instance exceptDecEq {e a : Type} [DecidableEq e] [DecidableEq a] :
    DecidableEq (Except e a) := fun x y =>
  match x, y with
  | .error u, .error v =>
    if h : u = v then isTrue (by rw [h]) else isFalse (fun hc => h (Except.error.inj hc))
  | .error _, .ok _ => isFalse (fun hc => Except.noConfusion hc)
  | .ok _, .error _ => isFalse (fun hc => Except.noConfusion hc)
  | .ok u, .ok v =>
    if h : u = v then isTrue (by rw [h]) else isFalse (fun hc => h (Except.ok.inj hc))

/-- The `Fat32FileSystem` struct of `file_system.rs`: the raw disk image
and the geometry fields derived from the boot sector (all `u32` in Rust,
`Nat` here). -/
structure Fat32FileSystem where
  disk : List Nat
  bytes_per_sector : Nat
  sectors_per_cluster : Nat
  fat_sector : Nat
  data_sector : Nat
  root_cluster : Nat
deriving Repr, DecidableEq

/-- Little-endian `u16` read at byte offset `o` (Rust
`u16::from_le_bytes` on a 2-byte slice of an entry). -/
def readU16At (d : List Nat) (o : Nat) : Nat := d.getD o 0 + 256 * d.getD (o + 1) 0

/-- Little-endian `u32` read at byte offset `o`. -/
def readU32At (d : List Nat) (o : Nat) : Nat :=
  d.getD o 0 + 256 * d.getD (o + 1) 0 + 65536 * d.getD (o + 2) 0 +
    16777216 * d.getD (o + 3) 0

/-- `Fat32FileSystem::read_sector(address)`: the `bytes_per_sector`-byte
slice at byte offset `address * bytes_per_sector` (a `u32` product, hence
the `% 2^32`), or the panic `"Error reading outbound"` when the range
passes the end of the image.  The `Except.error` outcome IS the Rust
`panic!`: the function has no recoverable-error channel. -/
def readSector (fs : Fat32FileSystem) (address : Nat) : Except String (List Nat) :=
  let offset := address * fs.bytes_per_sector % 4294967296
  let size := fs.bytes_per_sector
  if offset + size > fs.disk.length then .error "Error reading outbound"
  else .ok ((fs.disk.drop offset).take size)

/-- `Fat32FileSystem::read_cluster(cluster_id)`: concatenate the
`sectors_per_cluster` sectors starting at
`data_sector + (cluster_id - 2) * sectors_per_cluster` (the subtraction
is on `u32`, hence the wrap-around for `cluster_id < 2`). -/
def readCluster (fs : Fat32FileSystem) (cluster_id : Nat) : Except String (List Nat) :=
  let start := fs.data_sector + (cluster_id + 4294967294) % 4294967296 * fs.sectors_per_cluster
  (List.range fs.sectors_per_cluster).foldlM
    (fun acc i => (readSector fs (start + i)).map (fun s => acc ++ s)) []

/-- `Fat32FileSystem::read_fat_entry(cluster_id)`: read the 32-bit FAT
entry and mask it with `0x0FFFFFFF` (`% 2^28`).  Panics (models as
`error`) on a division by zero when `bytes_per_sector = 0`, on an
out-of-range sector, or on the `unwrap` of a short slice. -/
def readFatEntry (fs : Fat32FileSystem) (cluster_id : Nat) : Except String Nat :=
  if fs.bytes_per_sector = 0 then .error "attempt to divide by zero"
  else
    let fat_offset := cluster_id * 4
    let fat_sector := fs.fat_sector + fat_offset / fs.bytes_per_sector
    let fat_index := fat_offset % fs.bytes_per_sector
    match readSector fs fat_sector with
    | .error m => .error m
    | .ok sector =>
      if fat_index + 4 ≤ sector.length then .ok (readU32At sector fat_index % 268435456)
      else .error "called unwrap on a None value"

/-- The logical `FileInfo` record: name (UTF-8 bytes of the Rust
`String`), directory flag, size and start cluster. -/
structure FileInfo where
  name : List Nat
  is_directory : Bool
  size : Nat
  start_cluster : Nat
deriving Repr, DecidableEq

/-- `lfn_checksum(short_name)`: the standard FAT rotate-right-and-add
checksum over the 11 short-name bytes, on a wrapping `u8`
(`sum = ((sum & 1) << 7) + (sum >> 1) + b`, all `% 256`). -/
def lfnChecksum (name : List Nat) : Nat :=
  name.foldl (fun sum b => (sum % 2 * 128 + sum / 2 + b) % 256) 0

/-- Right-trim of the `0x20` padding, as done by the index loop in
`short_name_to_string`. -/
def trimTrailingSpaces (l : List Nat) : List Nat :=
  (l.reverse.dropWhile (fun b => b = 32)).reverse

/-- `short_name_to_string(name11)`: split into the 8-byte stem and 3-byte
extension, right-trim spaces, decode each as UTF-8 with
`unwrap_or("")` (an invalid part becomes empty), and rejoin with `.` iff
the extension is non-empty. -/
def shortNameToString (name11 : List Nat) : List Nat :=
  let name_part := trimTrailingSpaces (name11.take 8)
  let ext_part := trimTrailingSpaces ((name11.drop 8).take 3)
  let name_str := if utf8Valid name_part then name_part else []
  let ext_str := if utf8Valid ext_part then ext_part else []
  if ext_str.isEmpty then name_str else name_str ++ [46] ++ ext_str

/-- `byte_to_u16_vec(fragment)`: little-endian 2-byte chunks
(`chunks_exact(2)`, dropping a trailing odd byte). -/
def byteToU16Vec : List Nat → List Nat
  | b0 :: b1 :: rest => (b0 + 256 * b1) :: byteToU16Vec rest
  | _ => []

/-- Collected LFN fragments: `(sequence number, UTF-16 code units)`
pairs, in collection order. -/
def LfnFragments : Type := List (Nat × List Nat)

/-- Replace the first fragment with this sequence number, else push the
new fragment at the back (the `replaced` loop of `process_lfn_entry`). -/
def upsertFrag : List (Nat × List Nat) → Nat → List Nat → List (Nat × List Nat)
  | [], seq, d => [(seq, d)]
  | (s, f) :: rest, seq, d =>
    if s = seq then (seq, d) :: rest else (s, f) :: upsertFrag rest seq d

/-- `process_lfn_entry(chunk, fragments, expected_checksum)`:
`seq = chunk[0] & 0x1F` (`% 32`), `is_last = chunk[0] & 0x40` (bit 6);
when `is_last`, clear the fragments and record `chunk[13]` as the
expected checksum; extract the three UTF-16 spans at offsets 1 (10
bytes), 14 (12 bytes) and 28 (4 bytes); store or replace the fragment at
`seq`. -/
def processLfnEntry (chunk : List Nat) (frags : List (Nat × List Nat))
    (exp : Option Nat) : List (Nat × List Nat) × Option Nat :=
  let seq_num := chunk.getD 0 0
  let chksum := chunk.getD 13 0
  let seq := seq_num % 32
  let is_last := seq_num / 64 % 2 = 1
  let st1 := if is_last then ([], some chksum) else (frags, exp)
  let fragment_data :=
    byteToU16Vec ((chunk.drop 1).take 10) ++ byteToU16Vec ((chunk.drop 14).take 12) ++
      byteToU16Vec ((chunk.drop 28).take 4)
  (upsertFrag st1.1 seq fragment_data, st1.2)

/-- Stable insertion of a fragment into a seq-sorted list (a new fragment
goes after existing ones with the same seq). -/
def insertBySeq (x : Nat × List Nat) : List (Nat × List Nat) → List (Nat × List Nat)
  | [] => [x]
  | y :: t => if y.1 ≤ x.1 then y :: insertBySeq x t else x :: y :: t

/-- The `frags.sort_by(|a, b| a.0.cmp(&b.0))` of `assemble_lfn`: Rust
`sort_by` is a stable sort, and a stable sort is uniquely determined by
the comparator, so this stable insertion sort is extensionally the same
function. -/
def sortBySeq (l : List (Nat × List Nat)) : List (Nat × List Nat) :=
  l.foldl (fun acc x => insertBySeq x acc) []

/-- The inner character loop of `assemble_lfn` on one fragment: stop at
the first `0x0000` (the `break` leaves only this fragment's loop), skip
`0xFFFF` padding, keep everything else. -/
def takeFragChars : List Nat → List Nat
  | [] => []
  | ch :: t =>
    if ch = 0 then [] else if ch = 65535 then takeFragChars t else ch :: takeFragChars t

/-- `assemble_lfn(fragments)`: `None` when no fragment was collected;
otherwise sort by seq ascending, walk the fragments collecting code units
(per-fragment stop at `0x0000`, skipping `0xFFFF`), and decode UTF-16
(`None` exactly when `String::from_utf16` fails). -/
def assembleLfn (frags : List (Nat × List Nat)) : Option (List Nat) :=
  if frags.isEmpty then none
  else (utf16Decode ((sortBySeq frags).flatMap (fun p => takeFragChars p.2))).map utf8Encode

/-- `process_data_entry(chunk, fragments, expected_checksum, 0x10)`:
skip volume labels (`attr & 0x08`); read the start cluster from the
halves at offsets 20 and 26, the directory bit (`attr & 0x10`) and the
size at offset 28; use the assembled LFN when fragments exist and the
stored checksum equals `lfn_checksum` of the 11 name bytes, otherwise
fall back to the 8.3 decoding. -/
def processDataEntry (chunk : List Nat) (frags : List (Nat × List Nat))
    (exp : Option Nat) : Option FileInfo :=
  let name11 := chunk.take 11
  let attr := chunk.getD 11 0
  if attr / 8 % 2 = 1 then none
  else
    let start_cluster := readU16At chunk 20 * 65536 + readU16At chunk 26
    let is_directory := attr / 16 % 2 = 1
    let size := readU32At chunk 28
    let lfnName :=
      if frags.isEmpty = false ∧ exp = some (lfnChecksum name11) then assembleLfn frags
      else none
    some ⟨lfnName.getD (shortNameToString name11), is_directory, size, start_cluster⟩

/-- Fuel-driven `chunks_exact(32)` helper. -/
def chunksExact32 : Nat → List Nat → List (List Nat)
  | 0, _ => []
  | fuel + 1, data =>
    if 32 ≤ data.length then data.take 32 :: chunksExact32 fuel (data.drop 32) else []

/-- Rust `cluster_data.chunks_exact(32)`: the consecutive full 32-byte
chunks (any shorter remainder is dropped). -/
def chunks32 (data : List Nat) : List (List Nat) := chunksExact32 data.length data

/-- The entry loop of `list_directory_entries` over the 32-byte chunks,
carrying the LFN fragments and expected checksum: `0x00` ends the
directory, `0xE5` (229) is a deleted entry resetting the LFN state,
attribute `0x0F` (15) is an LFN fragment, anything else is a standard
entry which emits an optional `FileInfo` and resets the LFN state. -/
def listDirLoop : List (List Nat) → List (Nat × List Nat) → Option Nat → List FileInfo
  | [], _, _ => []
  | chunk :: rest, frags, exp =>
    let first_byte := chunk.getD 0 0
    let attributes := chunk.getD 11 0
    if first_byte = 0 then []
    else if first_byte = 229 then listDirLoop rest [] none
    else if attributes = 15 then
      let st1 := processLfnEntry chunk frags exp
      listDirLoop rest st1.1 st1.2
    else
      match processDataEntry chunk frags exp with
      | some fi => fi :: listDirLoop rest [] none
      | none => listDirLoop rest [] none

/-- `list_directory_entries(fs, cluster_id)`: read the cluster and run
the entry loop from an empty LFN state. -/
def listDirectoryEntries (fs : Fat32FileSystem) (cluster_id : Nat) :
    Except String (List FileInfo) :=
  (readCluster fs cluster_id).map (fun data => listDirLoop (chunks32 data) [] none)

end Fat32

namespace Fat32

/-- Rust `str::split("/")` on the path's characters (`'/'` is ASCII, so
splitting the scalar sequence equals splitting the byte sequence):
maximal runs between separators, with empty pieces kept. -/
def splitOnSlash : List Char → List (List Char)
  | [] => [[]]
  | c :: rest =>
    if c = '/' then [] :: splitOnSlash rest
    else
      match splitOnSlash rest with
      | h :: t => (c :: h) :: t
      | [] => [[c]]

/-- The `parts` of `parse_path`: split on `/` and discard empty
segments. -/
def pathSegments (path : String) : List (List Char) :=
  (splitOnSlash path.data).filter (fun s => ¬ s.isEmpty)

/-- The UTF-8 bytes of one path segment, for the bytewise comparison with
a `FileInfo` name (`f.name == *part`). -/
def segBytes (seg : List Char) : List Nat := seg.flatMap charBytes

/-- Rust `path.starts_with("/")`. -/
def startsWithSlash (s : String) : Bool :=
  match s.data with
  | c :: _ => c = '/'
  | [] => false

/-- `Fat32FileSystem::find_parent_cluster(current)`: `None` at the root;
otherwise find the `..` entry of the directory and map a stored parent
cluster of `0` back to the root cluster. -/
def findParentCluster (fs : Fat32FileSystem) (current : Nat) : Except String (Option Nat) :=
  if current = fs.root_cluster then .ok none
  else
    match listDirectoryEntries fs current with
    | .error m => .error m
    | .ok files =>
      match files.find? (fun f => f.name = strBytes "..") with
      | none => .ok none
      | some parent =>
        .ok (some (if parent.start_cluster = 0 then fs.root_cluster else parent.start_cluster))

/-- The segment loop of `parse_path`.  Each iteration first enumerates
the current directory (so a read happens even for `.` / `..`), then:
`.` keeps the cluster and continues — after the last segment the loop
falls through to `None`; `..` steps to the parent (a `?` miss gives
`None`) and on the last segment returns a synthetic `..` entry;
otherwise look the segment up by exact name bytes, returning it on the
last segment and descending when it is a directory. -/
def parsePathLoop (fs : Fat32FileSystem) :
    List (List Char) → Nat → Except String (Option FileInfo)
  | [], _ => .ok none
  | part :: rest, cluster =>
    match listDirectoryEntries fs cluster with
    | .error m => .error m
    | .ok files =>
      if part = ['.'] then
        if rest.isEmpty then .ok none else parsePathLoop fs rest cluster
      else if part = ['.', '.'] then
        match findParentCluster fs cluster with
        | .error m => .error m
        | .ok none => .ok none
        | .ok (some c2) =>
          if rest.isEmpty then .ok (some ⟨strBytes "..", true, 0, c2⟩)
          else parsePathLoop fs rest c2
      else
        match files.find? (fun f => f.name = segBytes part) with
        | none => .ok none
        | some file =>
          if rest.isEmpty then .ok (some file)
          else if file.is_directory = false then .ok none
          else parsePathLoop fs rest file.start_cluster

/-- `Fat32FileSystem::parse_path(path, current_cluster)`: start at the
root for an absolute path, else at `current_cluster` defaulting to the
root, and run the segment loop. -/
def parsePath (fs : Fat32FileSystem) (path : String) (current : Option Nat) :
    Except String (Option FileInfo) :=
  let cluster := if startsWithSlash path then fs.root_cluster else current.getD fs.root_cluster
  parsePathLoop fs (pathSegments path) cluster

/-- The cluster-chain loop of `read_file`: append `read_cluster(c)` and
step `c := read_fat_entry(c)` until the entry is `≥ 0x0FFFFFF8`.  The
fuel bounds the number of iterations; `ok none` means the fuel ran out
(the Rust loop would still be running). -/
def readChain (fs : Fat32FileSystem) :
    Nat → Nat → List Nat → Except String (Option (List Nat))
  | 0, _, _ => .ok none
  | fuel + 1, cluster, acc =>
    match readCluster fs cluster with
    | .error m => .error m
    | .ok cd =>
      match readFatEntry fs cluster with
      | .error m => .error m
      | .ok next =>
        if 268435448 ≤ next then .ok (some (acc ++ cd))
        else readChain fs fuel next (acc ++ cd)

/-- `Fat32FileSystem::read_file(path, current_cluster)`: resolve the
path (`"File not found"` on a miss, `"Not a file"` on a directory), walk
the cluster chain, `truncate` the buffer to `size` bytes (`List.take`:
like `Vec::truncate` it only ever shrinks), and UTF-8-validate
(`"Invalid UTF-8 content"` on failure).  The inner `Except` is the Rust
`Result<String, &str>`. -/
def readFile (fs : Fat32FileSystem) (fuel : Nat) (path : String) (current : Option Nat) :
    RunResult (Except String (List Nat)) :=
  match parsePath fs path current with
  | .error m => .panic m
  | .ok none => .ret (.error "File not found")
  | .ok (some file) =>
    if file.is_directory then .ret (.error "Not a file")
    else
      match readChain fs fuel file.start_cluster [] with
      | .error m => .panic m
      | .ok none => .div
      | .ok (some data) =>
        let truncated := data.take file.size
        .ret (if utf8Valid truncated then .ok truncated else .error "Invalid UTF-8 content")

/-- The `ShellSession` of `interface.rs`: a shared `Fat32FileSystem`
(the `Rc` wrapper is immaterial for a single session) and the current
cluster. -/
structure ShellSession where
  fs : Fat32FileSystem
  current_cluster : Nat
deriving Repr, DecidableEq

/-- `ShellSession::new`: the current directory starts at the root
cluster. -/
def ShellSession.new (fs : Fat32FileSystem) : ShellSession := ⟨fs, fs.root_cluster⟩

/-- `ShellSession::ls(path)`: with a path, resolve it against the current
cluster (`"Entry not found"` on a miss) and list the target's start
cluster; with `None`, list the current cluster.  `ls` takes `&self`, so
the session is untouched; the listing itself is only printed, hence the
`Unit` payload. -/
def shellLs (s : ShellSession) (path : Option String) : Except String (Except String Unit) :=
  match path with
  | some p =>
    match parsePath s.fs p (some s.current_cluster) with
    | .error m => .error m
    | .ok none => .ok (.error "Entry not found")
    | .ok (some file) =>
      match listDirectoryEntries s.fs file.start_cluster with
      | .error m => .error m
      | .ok _ => .ok (.ok ())
  | none =>
    match listDirectoryEntries s.fs s.current_cluster with
    | .error m => .error m
    | .ok _ => .ok (.ok ())

/-- `ShellSession::cd(path)`: resolve against the current cluster
(`"Entry not found"`), require a directory (`"Not a directory"`), and
only on success set `current_cluster` to the entry's start cluster.  The
returned session is the state of `&mut self` after the call. -/
def shellCd (s : ShellSession) (path : String) :
    Except String (ShellSession × Except String Unit) :=
  match parsePath s.fs path (some s.current_cluster) with
  | .error m => .error m
  | .ok none => .ok (s, .error "Entry not found")
  | .ok (some file) =>
    if file.is_directory = false then .ok (s, .error "Not a directory")
    else .ok (⟨s.fs, file.start_cluster⟩, .ok ())

/-- `ShellSession::cat(path)`: call `read_file(path, None)` — note the
literal `None` current cluster — and print either the content or the
error message; the returned value is the printed byte string. -/
def shellCat (s : ShellSession) (fuel : Nat) (path : String) : RunResult (List Nat) :=
  match readFile s.fs fuel path none with
  | .panic m => .panic m
  | .div => .div
  | .ret (.ok content) => .ret content
  | .ret (.error e) => .ret (strBytes e)

/-- One shell command. -/
inductive ShellCmd where
  | ls : Option String → ShellCmd
  | cd : String → ShellCmd
  | cat : String → ShellCmd

/-- One step of a shell session: run the command and return the session
afterwards together with the command's `Result<(), &str>` (in Rust, `ls`
and `cat` take `&self` — they cannot touch the session — and `cat`
always returns `Ok(())`, printing errors instead). -/
def shellStep (fuel : Nat) (s : ShellSession) :
    ShellCmd → RunResult (ShellSession × Except String Unit)
  | .ls p =>
    match shellLs s p with
    | .error m => .panic m
    | .ok r => .ret (s, r)
  | .cd p =>
    match shellCd s p with
    | .error m => .panic m
    | .ok sr => .ret sr
  | .cat p =>
    match shellCat s fuel p with
    | .panic m => .panic m
    | .div => .div
    | .ret _ => .ret (s, .ok ())

end Fat32

namespace Fat32

/-- Pad the final LFN fragment to 13 UTF-16 code units: a `0x0000`
terminator followed by `0xFFFF` padding, or nothing when the name fills
the fragment exactly (the standard FAT LFN layout). -/
def padFrag (u : List Nat) : List Nat :=
  u ++ (if u.length < 13 then 0 :: List.replicate (12 - u.length) 65535 else [])

/-- Fuel-driven split of a name's code units into 13-unit fragments. -/
def fragsOfGo : Nat → List Nat → List (List Nat)
  | 0, u => [padFrag u]
  | fuel + 1, u =>
    if u.length ≤ 13 then [padFrag u] else u.take 13 :: fragsOfGo fuel (u.drop 13)

/-- The ascending list of 13-unit LFN fragments carrying `units`
(fragment 1 first). -/
def fragsOf (units : List Nat) : List (List Nat) := fragsOfGo units.length units

/-- One on-disk 32-byte LFN entry: ordinal (sequence number, with bit
`0x40` on the last-in-name entry), the three name spans at offsets 1, 14
and 28, attribute `0x0F` at offset 11, type `0` at 12, the short-name
checksum at 13, and the reserved zero `u16` at 26. -/
def mkLfnEntry (seq : Nat) (frag : List Nat) (lastFlag : Nat) (cs : Nat) : List Nat :=
  [seq + lastFlag,
   frag.getD 0 0 % 256,
   frag.getD 0 0 / 256,
   frag.getD 1 0 % 256,
   frag.getD 1 0 / 256,
   frag.getD 2 0 % 256,
   frag.getD 2 0 / 256,
   frag.getD 3 0 % 256,
   frag.getD 3 0 / 256,
   frag.getD 4 0 % 256,
   frag.getD 4 0 / 256,
   15,
   0,
   cs,
   frag.getD 5 0 % 256,
   frag.getD 5 0 / 256,
   frag.getD 6 0 % 256,
   frag.getD 6 0 / 256,
   frag.getD 7 0 % 256,
   frag.getD 7 0 / 256,
   frag.getD 8 0 % 256,
   frag.getD 8 0 / 256,
   frag.getD 9 0 % 256,
   frag.getD 9 0 / 256,
   frag.getD 10 0 % 256,
   frag.getD 10 0 / 256,
   0,
   0,
   frag.getD 11 0 % 256,
   frag.getD 11 0 / 256,
   frag.getD 12 0 % 256,
   frag.getD 12 0 / 256]

/-- One on-disk 32-byte standard (8.3) directory entry: 11 name bytes,
the attribute byte, zeroed time/date fields, the start-cluster halves at
offsets 20 and 26, and the little-endian size at 28. -/
def mkSfnEntry (sfn : List Nat) (attr hi lo sz : Nat) : List Nat :=
  [sfn.getD 0 0,
   sfn.getD 1 0,
   sfn.getD 2 0,
   sfn.getD 3 0,
   sfn.getD 4 0,
   sfn.getD 5 0,
   sfn.getD 6 0,
   sfn.getD 7 0,
   sfn.getD 8 0,
   sfn.getD 9 0,
   sfn.getD 10 0,
   attr,
   0,
   0,
   0,
   0,
   0,
   0,
   0,
   0,
   hi % 256,
   hi / 256,
   0,
   0,
   0,
   0,
   lo % 256,
   lo / 256,
   sz % 256,
   sz / 256 % 256,
   sz / 65536 % 256,
   sz / 16777216 % 256]

/-- Number a fragment list with consecutive descending sequence numbers
starting at `k` (the on-disk order of LFN entries: last fragment
first). -/
def numberedDesc : List (List Nat) → Nat → List (Nat × List Nat)
  | [], _ => []
  | f :: t, k => (k, f) :: numberedDesc t (k - 1)

/-- The on-disk LFN entry sequence for a name with the given code units:
the highest-numbered fragment comes first and carries the `0x40` flag;
every entry stores the checksum `cs`. -/
def lfnEntries (units : List Nat) (cs : Nat) : List (List Nat) :=
  match numberedDesc (fragsOf units).reverse (fragsOf units).length with
  | [] => []
  | (s, f) :: t => mkLfnEntry s f 64 cs :: t.map (fun p => mkLfnEntry p.1 p.2 0 cs)

/-- A well-formed on-disk LFN run for the name with scalar values
`scalars`, followed by its standard entry whose checksum byte is
correctly computed (`lfn_checksum` of the short name) — the encoder that
defines "well-formed LFN entry sequence carrying a name N". -/
def encodeLfnDir (scalars sfn : List Nat) (attr hi lo sz : Nat) : List Nat :=
  (lfnEntries (utf16Encode scalars) (lfnChecksum sfn)).flatten ++
    mkSfnEntry sfn attr hi lo sz

/-- Assembly of LFN fragments as the claim words it: sort by seq
ascending, concatenate ALL fragments' code units, stop at the first
`0x0000` of that whole concatenation, skip `0xFFFF` padding, decode
UTF-16.  Stated only for comparison with `assembleLfn`, which stops at
`0x0000` per fragment. -/
def claimAssembleLfn (frags : List (Nat × List Nat)) : Option (List Nat) :=
  if frags.isEmpty then none
  else
    (utf16Decode ((((sortBySeq frags).flatMap (fun p => p.2)).takeWhile
        (fun ch => ch ≠ 0)).filter (fun ch => ch ≠ 65535))).map utf8Encode

/-- Assembly of LFN fragments as amended to match the code: sort by seq
ascending, then from EACH fragment take the code units up to that
fragment's first `0x0000` and drop `0xFFFF` padding (later fragments are
still processed after a `0x0000`), concatenate, decode UTF-16.  Written
with `takeWhile`/`filter` combinators; the equivalence with the code's
character loop is proved, not assumed. -/
def amendedAssembleLfn (frags : List (Nat × List Nat)) : Option (List Nat) :=
  if frags.isEmpty then none
  else
    (utf16Decode ((sortBySeq frags).flatMap
        (fun p => (p.2.takeWhile (fun ch => ch ≠ 0)).filter (fun ch => ch ≠ 65535)))).map
      utf8Encode

/-- The fragment pair used to separate `assembleLfn` from
`claimAssembleLfn`: fragment 1 contains `A` then the `0x0000` terminator,
fragment 2 contains `B` — the global stop would discard `B`, the
per-fragment stop keeps it. -/
def c6Frags : List (Nat × List Nat) :=
  [(1, 65 :: 0 :: List.replicate 11 65535), (2, 66 :: 0 :: List.replicate 11 65535)]

/-- Disk image for the truncation counterexample: 64-byte sectors; sector
0 is the FAT (entry 3 is end-of-chain `0x0FFFFFFF`), sector 1 is the root
directory cluster holding the single 8.3 entry `F` with declared size
1000 and start cluster 3, sector 2 is cluster 3 holding 64 bytes of
`a`. -/
def c4Disk : List Nat :=
  (List.replicate 12 0 ++ [255, 255, 255, 15] ++ List.replicate 48 0) ++
    ([70] ++ List.replicate 10 32 ++ [0] ++ List.replicate 8 0 ++ [0, 0] ++
      List.replicate 4 0 ++ [3, 0] ++ [232, 3, 0, 0] ++ List.replicate 32 0) ++
    List.replicate 64 97

/-- Volume over `c4Disk`: 64-byte sectors, one sector per cluster, FAT at
sector 0, data area at sector 1, root cluster 2 — so the declared file
size (1000) exceeds the 64 bytes its one-cluster chain can supply. -/
def c4Fs : Fat32FileSystem := ⟨c4Disk, 64, 1, 0, 1, 2⟩

/-- A minimal volume whose root cluster reads as 32 zero bytes (an empty
directory): 32-byte sectors, one sector per cluster, data area at sector
0, root cluster 2. -/
def emptyDirFs : Fat32FileSystem := ⟨List.replicate 32 0, 32, 1, 0, 0, 2⟩

/-- Disk image for the out-of-bounds read counterexample: only 10 bytes,
shorter than one 512-byte sector. -/
def c3Fs : Fat32FileSystem := ⟨List.replicate 10 0, 512, 1, 0, 0, 2⟩

/-- A 32-byte image of two 16-byte sectors (bytes `1` then bytes `2`)
used to witness both directions of the amended read_sector claim. -/
def c3WitnessFs : Fat32FileSystem :=
  ⟨List.replicate 16 1 ++ List.replicate 16 2, 16, 1, 0, 0, 2⟩

/-- Volume whose root cluster (cluster 2, at sector 0) is exactly the
well-formed LFN run for the one-character name `A` (scalars `[65]`)
followed by its standard entry: 64-byte sectors, one sector per cluster,
data area at sector 0. -/
def c5Fs : Fat32FileSystem :=
  ⟨encodeLfnDir [65] (65 :: List.replicate 10 32) 32 0 5 0, 64, 1, 0, 0, 2⟩

end Fat32
/-- C1: the claimed partition of slabs over the three rings fails on the
code.  On a fresh allocator, `alloc(2048)` followed by `dealloc(p, 2048)`
(a trace with `8 ≤ s ≤ 2048`) leaves the slab with `inuse = 0` on the
`slabs_partial` ring and the `slabs_free` ring empty: the 2048-byte class
has `num = 1`, so after the decrement both `inuse + 1 = num` and
`inuse = 0` hold, and the `if`/`else if` in `dealloc` takes only the
move-to-partial branch. -/
theorem SlabAlloc.c1_dealloc_leaves_empty_slab_on_partial_ring :
    SlabAlloc.c1FinalState.map (fun st =>
      (SlabAlloc.cachePartitionOk st,
       (st.node_caches.getD 8 none).map SlabAlloc.partList,
       (st.node_caches.getD 8 none).map SlabAlloc.freeList,
       (SlabAlloc.lookupSlab st 1052672).map SlabAlloc.SlabPage.inuse)) =
    some (false, some [1052672], some [], some 0) := by decide

/-- C2: the code selects the size class from the trailing zeros of the RAW
request size, not of the rounded size: for `size = 12` the code computes
index `0` where the claimed formula gives `1`, and on the trace
`alloc(8); alloc(12)` the second request is served from the class-0 cache
whose `obj_size` is `8 < 12` (the two returned pointers are only 8 bytes
apart). -/
theorem SlabAlloc.c2_size_class_index_uses_raw_size :
    SlabAlloc.cacheIndex 12 = 0 ∧ SlabAlloc.claimSizeClassIndex 12 = 1 ∧
    SlabAlloc.c2Trace.map (fun t =>
      ((t.1.node_caches.getD 0 none).map SlabAlloc.objSize, t.2.1, t.2.2)) =
      some (some 8, 1054064, 1054072) ∧ ¬ (12 ≤ 8) := by decide

set_option maxRecDepth 4000 in
/-- C7: on a fresh allocator (any page-aligned heap base with at least two
pages of room), `alloc(16)` twice returns non-null addresses exactly 16
bytes apart in the same page; deallocating the first and allocating again
returns exactly the freed address (LIFO reuse through the slab free
chain). -/
theorem SlabAlloc.c7_alloc_dealloc_lifo_reuse (hs hsz : Nat)
    (hal : hs % 4096 = 0) (hbig : 8192 ≤ hsz) :
    ∃ st1 st2 st3 st4 a1 a2 a3,
      SlabAlloc.alloc (SlabAlloc.initState hs hsz) 16 = some (st1, a1) ∧
      SlabAlloc.alloc st1 16 = some (st2, a2) ∧
      SlabAlloc.dealloc st2 a1 16 = some st3 ∧
      SlabAlloc.alloc st3 16 = some (st4, a3) ∧
      a1 ≠ 0 ∧ a2 ≠ 0 ∧ a2 = a1 + 16 ∧ a1 / 4096 = a2 / 4096 ∧ a3 = a1 := by
  refine ⟨⟨hs + 8192, hs + hsz,
          [none, some ⟨[], [hs + 4096], [], 16, 202, "size-16"⟩,
           none, none, none, none, none, none, none],
          [(hs + 4096, ⟨hs + 4944, 1, 1, SlabAlloc.initBufctl 202⟩)]⟩,
         ⟨hs + 8192, hs + hsz,
          [none, some ⟨[], [hs + 4096], [], 16, 202, "size-16"⟩,
           none, none, none, none, none, none, none],
          [(hs + 4096, ⟨hs + 4944, 2, 2, SlabAlloc.initBufctl 202⟩)]⟩,
         ⟨hs + 8192, hs + hsz,
          [none, some ⟨[], [hs + 4096], [], 16, 202, "size-16"⟩,
           none, none, none, none, none, none, none],
          [(hs + 4096, ⟨hs + 4944, 0, 1, (SlabAlloc.initBufctl 202).set 0 2⟩)]⟩,
         ⟨hs + 8192, hs + hsz,
          [none, some ⟨[], [hs + 4096], [], 16, 202, "size-16"⟩,
           none, none, none, none, none, none, none],
          [(hs + 4096, ⟨hs + 4944, 2, 2, (SlabAlloc.initBufctl 202).set 0 2⟩)]⟩,
         hs + 4944, hs + 4960, hs + 4944, ?_, ?_, ?_, ?_, ?_, ?_, ?_, ?_, ?_⟩
  case _ =>
    have h1 : ¬ (hs + hsz < hs + 4096) := by omega
    have h2 : ¬ (hs + hsz < hs + 4096 + 4096) := by omega
    have h3 : (hs + 4096 + 855) / 8 * 8 = hs + 4944 := by omega
    simp [SlabAlloc.alloc, SlabAlloc.initState, SlabAlloc.getOrCreateCache,
      SlabAlloc.cacheIndex, SlabAlloc.trailingZeros, SlabAlloc.tzGo,
      SlabAlloc.allocPages, SlabAlloc.setCache, SlabAlloc.cacheGrow,
      SlabAlloc.alignUp, SlabAlloc.MAX_SLAB_SIZE, SlabAlloc.MAX_CLASSES,
      SlabAlloc.PAGE_SIZE, SlabAlloc.SIZEOF_SLAB, SlabAlloc.SIZEOF_BUFCTL,
      SlabAlloc.CACHE_NAMES, SlabAlloc.nextPow2, SlabAlloc.np2Go,
      SlabAlloc.lookupSlab, SlabAlloc.setSlab, SlabAlloc.fullList,
      SlabAlloc.partList, SlabAlloc.freeList, SlabAlloc.objSize,
      SlabAlloc.numObjs, SlabAlloc.cacheName, List.replicate,
      List.set, List.get?, List.getD, List.find?, List.map, h1, h2, h3]
  case _ =>
    have h4 : (SlabAlloc.initBufctl 202).getD 1 0 = 2 := by decide
    simp [SlabAlloc.alloc, SlabAlloc.getOrCreateCache, SlabAlloc.cacheIndex,
      SlabAlloc.trailingZeros, SlabAlloc.tzGo, SlabAlloc.allocPages,
      SlabAlloc.setCache, SlabAlloc.MAX_SLAB_SIZE, SlabAlloc.PAGE_SIZE,
      SlabAlloc.lookupSlab, SlabAlloc.setSlab, SlabAlloc.fullList,
      SlabAlloc.partList, SlabAlloc.freeList, SlabAlloc.objSize,
      SlabAlloc.numObjs, SlabAlloc.cacheName,
      List.set, List.get?, List.getD, List.find?, List.map, h4]
  case _ =>
    have h5 : ¬ (hs + 4944 = 0) := by omega
    have h6 : hs + 4944 - (hs + 4944) % 4096 = hs + 4096 := by omega
    simp [SlabAlloc.dealloc, SlabAlloc.getOrCreateCache, SlabAlloc.cacheIndex,
      SlabAlloc.trailingZeros, SlabAlloc.tzGo, SlabAlloc.allocPages,
      SlabAlloc.setCache, SlabAlloc.MAX_SLAB_SIZE, SlabAlloc.PAGE_SIZE,
      SlabAlloc.lookupSlab, SlabAlloc.setSlab, SlabAlloc.fullList,
      SlabAlloc.partList, SlabAlloc.freeList, SlabAlloc.objSize,
      SlabAlloc.numObjs, SlabAlloc.cacheName,
      List.set, List.get?, List.getD, List.find?, List.map, h5, h6]
  case _ =>
    have h7 : ((SlabAlloc.initBufctl 202).set 0 2).getD 0 0 = 2 := by decide
    simp [SlabAlloc.alloc, SlabAlloc.getOrCreateCache, SlabAlloc.cacheIndex,
      SlabAlloc.trailingZeros, SlabAlloc.tzGo, SlabAlloc.allocPages,
      SlabAlloc.setCache, SlabAlloc.MAX_SLAB_SIZE, SlabAlloc.PAGE_SIZE,
      SlabAlloc.lookupSlab, SlabAlloc.setSlab, SlabAlloc.fullList,
      SlabAlloc.partList, SlabAlloc.freeList, SlabAlloc.objSize,
      SlabAlloc.numObjs, SlabAlloc.cacheName,
      List.set, List.get?, List.getD, List.find?, List.map, h7]
  case _ => omega
  case _ => omega
  case _ => omega
  case _ => omega
  case _ => rfl

/-- C7 witness: the LIFO-reuse theorem applied to the concrete fresh
allocator with a 16-page heap at `0x100000`. -/
theorem SlabAlloc.c7_alloc_dealloc_lifo_reuse_witness :
    ∃ st1 st2 st3 st4 a1 a2 a3,
      SlabAlloc.alloc (SlabAlloc.initState 1048576 65536) 16 = some (st1, a1) ∧
      SlabAlloc.alloc st1 16 = some (st2, a2) ∧
      SlabAlloc.dealloc st2 a1 16 = some st3 ∧
      SlabAlloc.alloc st3 16 = some (st4, a3) ∧
      a1 ≠ 0 ∧ a2 ≠ 0 ∧ a2 = a1 + 16 ∧ a1 / 4096 = a2 / 4096 ∧ a3 = a1 :=
  SlabAlloc.c7_alloc_dealloc_lifo_reuse 1048576 65536 (by decide) (by decide)


/-- Helper: the character loop of `assemble_lfn` on one fragment equals
take-up-to-the-first-`0x0000` followed by dropping the `0xFFFF`
padding. -/
theorem Fat32.takeFragChars_eq_combinators (l : List Nat) :
    Fat32.takeFragChars l =
      (l.takeWhile (fun ch => ch ≠ 0)).filter (fun ch => ch ≠ 65535) := by
  induction l with
  | nil => rfl
  | cons ch t ih =>
    by_cases h0 : ch = 0
    · subst h0; simp [Fat32.takeFragChars, List.takeWhile]
    · by_cases hf : ch = 65535
      · subst hf
        simpa [Fat32.takeFragChars, List.takeWhile, List.filter] using ih
      · simp [Fat32.takeFragChars, List.takeWhile, List.filter, h0, hf, ih]

/-- C3 counterexample: `read_sector` on an address whose byte range
passes the end of the image does NOT terminate with a recoverable tagged
error — it panics (`panic!("Error reading outbound")`, the `Except.error`
channel of this embedding), and no `ok` outcome exists. -/
theorem Fat32.c3_read_sector_out_of_bounds_panics :
    Fat32.readSector Fat32.c3Fs 0 = Except.error "Error reading outbound" ∧
    ∀ bs, Fat32.readSector Fat32.c3Fs 0 ≠ Except.ok bs := by
  refine ⟨by decide, ?_⟩
  intro bs h
  rw [show Fat32.readSector Fat32.c3Fs 0 = Except.error "Error reading outbound" by decide] at h
  exact Except.noConfusion h

/-- C3 amended: for every sector address whose byte range (computed
without `u32` overflow) passes the image length, `read_sector` aborts
with the panic `"Error reading outbound"` (an unrecoverable abort, not a
recoverable error); for every in-range address it returns the
`bytes_per_sector`-byte slice at offset `a * bytes_per_sector`. -/
theorem Fat32.c3_read_sector_amended (fs : Fat32.Fat32FileSystem) (a : Nat)
    (hof : a * fs.bytes_per_sector + fs.bytes_per_sector ≤ 4294967296) :
    (fs.disk.length < a * fs.bytes_per_sector + fs.bytes_per_sector →
      Fat32.readSector fs a = Except.error "Error reading outbound") ∧
    (a * fs.bytes_per_sector + fs.bytes_per_sector ≤ fs.disk.length →
      Fat32.readSector fs a =
        Except.ok ((fs.disk.drop (a * fs.bytes_per_sector)).take fs.bytes_per_sector)) := by
  have hmod : a * fs.bytes_per_sector % 4294967296 = a * fs.bytes_per_sector := by
    apply Nat.mod_eq_of_lt
    by_cases hb : fs.bytes_per_sector = 0
    · simp [hb]
    · omega
  constructor
  · intro hout
    unfold Fat32.readSector
    rw [hmod, if_pos (by omega)]
  · intro hin
    unfold Fat32.readSector
    rw [hmod, if_neg (by omega)]

set_option maxRecDepth 20000 in
/-- C3 witness: on a 32-byte image with 16-byte sectors, sector 3 is out
of range and panics, while sector 1 returns the slice at byte 16. -/
theorem Fat32.c3_read_sector_amended_witness :
    Fat32.readSector Fat32.c3WitnessFs 3 = Except.error "Error reading outbound" ∧
    Fat32.readSector Fat32.c3WitnessFs 1 =
      Except.ok ((Fat32.c3WitnessFs.disk.drop (1 * 16)).take 16) :=
  ⟨(Fat32.c3_read_sector_amended Fat32.c3WitnessFs 3 (by decide)).1 (by decide),
   (Fat32.c3_read_sector_amended Fat32.c3WitnessFs 1 (by decide)).2 (by decide)⟩

set_option maxRecDepth 100000 in
/-- C4 counterexample: on `c4Fs` the entry `/F` declares size 1000 but
its cluster chain supplies only 64 bytes; `read_file` succeeds with a
64-byte string, so the returned length differs from the `FileInfo`
size (`Vec::truncate` only ever shrinks). -/
theorem Fat32.c4_read_file_length_counterexample :
    Fat32.readFile Fat32.c4Fs 4 "/F" none =
      Fat32.RunResult.ret (Except.ok (List.replicate 64 97)) ∧
    Fat32.parsePath Fat32.c4Fs "/F" none =
      Except.ok (some ⟨[70], false, 1000, 3⟩) ∧
    (List.replicate 64 97).length ≠ 1000 := by decide

/-- C4 amended: whenever `read_file` succeeds, the returned string's byte
length is `min size chainLen` where `chainLen` is the length of the
concatenated cluster-chain data — the buffer is truncated to AT MOST
`size` bytes, and equals `size` exactly when the chain supplies at least
`size` bytes. -/
theorem Fat32.c4_read_file_length_amended (fs : Fat32.Fat32FileSystem) (fuel : Nat)
    (path : String) (cur : Option Nat) (fi : Fat32.FileInfo) (chain bytes : List Nat)
    (hparse : Fat32.parsePath fs path cur = Except.ok (some fi))
    (hchain : Fat32.readChain fs fuel fi.start_cluster [] = Except.ok (some chain))
    (hrun : Fat32.readFile fs fuel path cur = Fat32.RunResult.ret (Except.ok bytes)) :
    bytes.length = min fi.size chain.length ∧
    (fi.size ≤ chain.length → bytes.length = fi.size) := by
  simp only [Fat32.readFile, hparse] at hrun
  by_cases hdir : fi.is_directory = true
  · rw [if_pos hdir] at hrun
    exact absurd (Fat32.RunResult.ret.inj hrun) (by simp)
  · rw [if_neg hdir, hchain] at hrun
    simp only [] at hrun
    by_cases hv : Fat32.utf8Valid (chain.take fi.size) = true
    · rw [if_pos hv] at hrun
      have hbytes : chain.take fi.size = bytes := Except.ok.inj (Fat32.RunResult.ret.inj hrun)
      subst hbytes
      refine ⟨List.length_take _ _, fun hle => ?_⟩
      rw [List.length_take]
      omega
    · rw [if_neg hv] at hrun
      exact absurd (Fat32.RunResult.ret.inj hrun) (by simp)

set_option maxRecDepth 100000 in
/-- C4 witness: the amended length law evaluated on `c4Fs` at `/F`:
the 64 returned bytes are `min 1000 64`. -/
theorem Fat32.c4_read_file_length_amended_witness :
    (List.replicate 64 97).length = min (1000 : Nat) (List.replicate 64 97).length ∧
    ((1000 : Nat) ≤ (List.replicate 64 97).length →
      (List.replicate 64 97).length = 1000) :=
  Fat32.c4_read_file_length_amended Fat32.c4Fs 4 "/F" none ⟨[70], false, 1000, 3⟩
    (List.replicate 64 97) (List.replicate 64 97) (by decide) (by decide) (by decide)

/-- C6 counterexample: on the fragment set `c6Frags` (which passes any
checksum test it is given), the code assembles `AB` — the `break` at the
`0x0000` terminator leaves only the current fragment's loop, so fragment
2's `B` is still collected — while the claim's global stop at the first
`0x0000` of the concatenation yields `A`. -/
theorem Fat32.c6_assemble_lfn_counterexample :
    Fat32.assembleLfn Fat32.c6Frags = some [65, 66] ∧
    Fat32.claimAssembleLfn Fat32.c6Frags = some [65] ∧
    Fat32.assembleLfn Fat32.c6Frags ≠ Fat32.claimAssembleLfn Fat32.c6Frags := by decide

/-- C6 amended: the code's assembly equals the per-fragment variant (sort
by seq ascending, take each fragment's units up to ITS first `0x0000`,
skip `0xFFFF`, concatenate fragments, decode UTF-16), and on a
checksum-passing standard entry the emitted name is that assembly with
the 8.3 decoding as fallback when it fails. -/
theorem Fat32.c6_assemble_lfn_amended :
    (∀ frags, Fat32.assembleLfn frags = Fat32.amendedAssembleLfn frags) ∧
    (∀ chunk frags exp,
      frags ≠ [] →
      exp = some (Fat32.lfnChecksum (chunk.take 11)) →
      (chunk.getD 11 0) / 8 % 2 = 0 →
      ∃ fi, Fat32.processDataEntry chunk frags exp = some fi ∧
        fi.name = (Fat32.amendedAssembleLfn frags).getD
          (Fat32.shortNameToString (chunk.take 11))) := by
  have heq : ∀ frags, Fat32.assembleLfn frags = Fat32.amendedAssembleLfn frags := by
    intro frags
    unfold Fat32.assembleLfn Fat32.amendedAssembleLfn
    simp only [Fat32.takeFragChars_eq_combinators]
  refine ⟨heq, ?_⟩
  intro chunk frags exp hne hexp hvol
  unfold Fat32.processDataEntry
  rw [if_neg (by simpa using hvol)]
  have hempty : frags.isEmpty = false := by
    cases frags with
    | nil => exact absurd rfl hne
    | cons a t => rfl
  rw [if_pos ⟨hempty, hexp⟩, heq]
  exact ⟨_, rfl, rfl⟩

/-- C6 witness: the amended assembly law applied to the concrete
fragment pair `c6Frags` and a concrete standard entry whose checksum
matches. -/
theorem Fat32.c6_assemble_lfn_amended_witness :
    ∃ fi, Fat32.processDataEntry (Fat32.mkSfnEntry (65 :: List.replicate 10 32) 32 0 5 0)
        Fat32.c6Frags
        (some (Fat32.lfnChecksum
          ((Fat32.mkSfnEntry (65 :: List.replicate 10 32) 32 0 5 0).take 11))) = some fi ∧
      fi.name = (Fat32.amendedAssembleLfn Fat32.c6Frags).getD
        (Fat32.shortNameToString
          ((Fat32.mkSfnEntry (65 :: List.replicate 10 32) 32 0 5 0).take 11)) :=
  Fat32.c6_assemble_lfn_amended.2 _ _ _ (by decide) rfl (by decide)

/-- Helper for C9: when the last path segment is `.`, the segment loop of
`parse_path` can never return a resolved entry — the `.` arm of the final
iteration just continues, and the loop then falls through to `None`. -/
theorem Fat32.parsePathLoop_lastDot_ne_some (fs : Fat32.Fat32FileSystem) :
    ∀ (parts : List (List Char)) (cluster : Nat),
      parts.getLast? = some ['.'] →
      ∀ fi, Fat32.parsePathLoop fs parts cluster ≠ Except.ok (some fi) := by
  intro parts
  induction parts with
  | nil => intro cluster h; exact absurd h (by simp)
  | cons part rest ih =>
    intro cluster h fi
    unfold Fat32.parsePathLoop
    cases hfiles : Fat32.listDirectoryEntries fs cluster with
    | error m => simp
    | ok files =>
      cases rest with
      | nil =>
        have hpart : part = ['.'] := by simpa using h
        subst hpart
        simp
      | cons b t =>
        have htail : (b :: t).getLast? = some ['.'] := by
          rwa [List.getLast?_cons_cons] at h
        by_cases hdot : part = ['.']
        · subst hdot
          simpa using ih cluster htail fi
        · by_cases hdd : part = ['.', '.']
          · subst hdd
            cases hpar : Fat32.findParentCluster fs cluster with
            | error m => simp
            | ok o =>
              cases o with
              | none => simp
              | some c2 => simpa using ih c2 htail fi
          · cases hfind : files.find? (fun f => f.name = Fat32.segBytes part) with
            | none => simp [hdot, hdd, hfind]
            | some file =>
              by_cases hdirf : file.is_directory = false
              · simp [hdot, hdd, hfind, hdirf]
              · simpa [hdot, hdd, hfind, hdirf] using ih file.start_cluster htail fi


/-- C9: a path whose non-empty segments are empty or end in `.` — such
as `/`, `""`, `.`, `./` or `dir/.` — can never resolve: `parse_path`
never returns an entry for it (the `.` arm of the last iteration falls
through to the final `None`), and whenever it returns `None` without
panicking, `ls` and `cd` on that path answer `"Entry not found"` even
though the designated directory exists. -/
theorem Fat32.c9_dot_terminated_paths_never_resolve (s : Fat32.ShellSession)
    (path : String)
    (h : Fat32.pathSegments path = [] ∨
      (Fat32.pathSegments path).getLast? = some ['.']) :
    (∀ fi, Fat32.parsePath s.fs path (some s.current_cluster) ≠ Except.ok (some fi)) ∧
    (Fat32.parsePath s.fs path (some s.current_cluster) = Except.ok none →
      Fat32.shellLs s (some path) = Except.ok (Except.error "Entry not found") ∧
      Fat32.shellCd s path = Except.ok (s, Except.error "Entry not found")) := by
  constructor
  · intro fi
    unfold Fat32.parsePath
    cases h with
    | inl hnil => rw [hnil]; simp [Fat32.parsePathLoop]
    | inr hdot => exact Fat32.parsePathLoop_lastDot_ne_some s.fs _ _ hdot fi
  · intro hnone
    constructor
    · simp only [Fat32.shellLs, hnone]
    · simp only [Fat32.shellCd, hnone]

/-- C9 witness: on the concrete empty-directory volume, `ls "."` and
`cd "."` both fail with `"Entry not found"` although `.` designates the
current directory, which exists. -/
theorem Fat32.c9_dot_terminated_paths_never_resolve_witness :
    Fat32.shellLs (Fat32.ShellSession.new Fat32.emptyDirFs) (some ".") =
      Except.ok (Except.error "Entry not found") ∧
    Fat32.shellCd (Fat32.ShellSession.new Fat32.emptyDirFs) "." =
      Except.ok (Fat32.ShellSession.new Fat32.emptyDirFs, Except.error "Entry not found") :=
  (Fat32.c9_dot_terminated_paths_never_resolve (Fat32.ShellSession.new Fat32.emptyDirFs)
    "." (by decide)).2 (by decide)

/-- C10: `cat` passes the literal `None` current cluster to `read_file`,
so its printed output is the same whatever the session's current cluster
is, and resolution with no current cluster starts at the root cluster
exactly as it does when the root cluster is passed explicitly: `cat`
depends only on the volume and the path, never on prior `cd` calls. -/
theorem Fat32.c10_cat_resolves_from_root (fs : Fat32.Fat32FileSystem) (fuel : Nat)
    (path : String) (c1 c2 : Nat) :
    Fat32.shellCat ⟨fs, c1⟩ fuel path = Fat32.shellCat ⟨fs, c2⟩ fuel path ∧
    Fat32.parsePath fs path none = Fat32.parsePath fs path (some fs.root_cluster) := by
  constructor
  · rfl
  · unfold Fat32.parsePath
    cases hs : Fat32.startsWithSlash path <;> simp [hs]

/-- C8: across one shell command, the session is unchanged by `ls` and
`cat` (they take `&self`), unchanged by a `cd` that returns an error, and
mutated exactly to the resolved entry's start cluster by a `cd` that
succeeds (which also requires the entry to be a directory). -/
theorem Fat32.c8_only_successful_cd_mutates (fuel : Nat) (s : Fat32.ShellSession)
    (cmd : Fat32.ShellCmd) (s2 : Fat32.ShellSession) (r : Except String Unit)
    (h : Fat32.shellStep fuel s cmd = Fat32.RunResult.ret (s2, r)) :
    (match cmd with
     | .ls _ => s2 = s
     | .cat _ => s2 = s
     | .cd p =>
       (∀ e, r = Except.error e → s2 = s) ∧
       (r = Except.ok () →
         ∃ fi, Fat32.parsePath s.fs p (some s.current_cluster) = Except.ok (some fi) ∧
           fi.is_directory = true ∧ s2 = ⟨s.fs, fi.start_cluster⟩) : Prop) := by
  cases cmd with
  | ls p =>
    show s2 = s
    simp only [Fat32.shellStep] at h
    cases hls : Fat32.shellLs s p with
    | error m =>
      rw [hls] at h
      exact Fat32.RunResult.noConfusion h
    | ok r2 =>
      rw [hls] at h
      exact (congrArg Prod.fst (Fat32.RunResult.ret.inj h)).symm
  | cat p =>
    show s2 = s
    simp only [Fat32.shellStep] at h
    cases hc : Fat32.shellCat s fuel p with
    | div =>
      rw [hc] at h
      exact Fat32.RunResult.noConfusion h
    | panic m =>
      rw [hc] at h
      exact Fat32.RunResult.noConfusion h
    | ret v =>
      rw [hc] at h
      exact (congrArg Prod.fst (Fat32.RunResult.ret.inj h)).symm
  | cd p =>
    show (∀ e, r = Except.error e → s2 = s) ∧
      (r = Except.ok () →
        ∃ fi, Fat32.parsePath s.fs p (some s.current_cluster) = Except.ok (some fi) ∧
          fi.is_directory = true ∧ s2 = ⟨s.fs, fi.start_cluster⟩)
    simp only [Fat32.shellStep, Fat32.shellCd] at h
    cases hp : Fat32.parsePath s.fs p (some s.current_cluster) with
    | error m =>
      rw [hp] at h
      exact Fat32.RunResult.noConfusion h
    | ok o =>
      rw [hp] at h
      cases o with
      | none =>
        have hpair : (s, (Except.error "Entry not found" : Except String Unit)) = (s2, r) :=
          Fat32.RunResult.ret.inj h
        injection hpair with ha hb
        subst ha; subst hb
        exact ⟨fun e _ => rfl, fun hok => absurd hok (by simp)⟩
      | some fi =>
        by_cases hdir : fi.is_directory = false
        · simp [hdir] at h
          obtain ⟨ha, hb⟩ := h
          subst ha; subst hb
          exact ⟨fun e _ => rfl, fun hok => absurd hok (by simp)⟩
        · simp [hdir] at h
          obtain ⟨ha, hb⟩ := h
          subst ha; subst hb
          refine ⟨fun e he => absurd he (by simp), fun _ => ⟨fi, rfl, ?_, rfl⟩⟩
          cases hfi : fi.is_directory with
          | false => exact absurd hfi hdir
          | true => rfl

/-- C8 witness: one concrete failing `cd` on the empty-directory volume —
the step returns `"Entry not found"` and the frame property instantiated
at it. -/
theorem Fat32.c8_only_successful_cd_mutates_witness :
    (∀ e, (Except.error "Entry not found" : Except String Unit) = Except.error e →
      Fat32.ShellSession.new Fat32.emptyDirFs = Fat32.ShellSession.new Fat32.emptyDirFs) ∧
    ((Except.error "Entry not found" : Except String Unit) = Except.ok () →
      ∃ fi, Fat32.parsePath (Fat32.ShellSession.new Fat32.emptyDirFs).fs "x"
          (some (Fat32.ShellSession.new Fat32.emptyDirFs).current_cluster) =
            Except.ok (some fi) ∧
        fi.is_directory = true ∧
        Fat32.ShellSession.new Fat32.emptyDirFs =
          ⟨(Fat32.ShellSession.new Fat32.emptyDirFs).fs, fi.start_cluster⟩) :=
  Fat32.c8_only_successful_cd_mutates 0 (Fat32.ShellSession.new Fat32.emptyDirFs)
    (Fat32.ShellCmd.cd "x") (Fat32.ShellSession.new Fat32.emptyDirFs)
    (Except.error "Entry not found") (by decide)

namespace Fat32

theorem eq_of_length13 (f : List Nat) (hf : f.length = 13) :
    f = [f.getD 0 0, f.getD 1 0, f.getD 2 0, f.getD 3 0, f.getD 4 0, f.getD 5 0,
         f.getD 6 0, f.getD 7 0, f.getD 8 0, f.getD 9 0, f.getD 10 0, f.getD 11 0,
         f.getD 12 0] := by
  rcases f with _ | ⟨x0, _ | ⟨x1, _ | ⟨x2, _ | ⟨x3, _ | ⟨x4, _ | ⟨x5, _ | ⟨x6, _ | ⟨x7, _ | ⟨x8, _ | ⟨x9, _ | ⟨x10, _ | ⟨x11, _ | ⟨x12, rest⟩⟩⟩⟩⟩⟩⟩⟩⟩⟩⟩⟩⟩ <;> simp at hf
  rcases rest with _ | ⟨y, rest⟩
  · rfl
  · simp at hf

theorem eq_of_length11 (f : List Nat) (hf : f.length = 11) :
    f = [f.getD 0 0, f.getD 1 0, f.getD 2 0, f.getD 3 0, f.getD 4 0, f.getD 5 0,
         f.getD 6 0, f.getD 7 0, f.getD 8 0, f.getD 9 0, f.getD 10 0] := by
  rcases f with _ | ⟨x0, _ | ⟨x1, _ | ⟨x2, _ | ⟨x3, _ | ⟨x4, _ | ⟨x5, _ | ⟨x6, _ | ⟨x7, _ | ⟨x8, _ | ⟨x9, _ | ⟨x10, rest⟩⟩⟩⟩⟩⟩⟩⟩⟩⟩⟩ <;> simp at hf
  rcases rest with _ | ⟨y, rest⟩
  · rfl
  · simp at hf

theorem processLfnEntry_mk_not_last (s : Nat) (f : List Nat) (cs : Nat)
    (frags : List (Nat × List Nat)) (exp : Option Nat)
    (hf : f.length = 13) (hs1 : 1 ≤ s) (hs31 : s ≤ 31) :
    Fat32.processLfnEntry (Fat32.mkLfnEntry s f 0 cs) frags exp =
      (Fat32.upsertFrag frags s f, exp) := by
  have hc : ¬ (s / 64 % 2 = 1) := by omega
  have hseq : s % 32 = s := by omega
  simp only [Fat32.processLfnEntry, Fat32.mkLfnEntry, Fat32.byteToU16Vec,
    List.getD_cons_zero, List.getD_cons_succ, List.drop, List.take,
    Nat.add_zero, Nat.mod_add_div, List.cons_append, List.nil_append]
  rw [if_neg hc]
  simp only [hseq]
  rw [← Fat32.eq_of_length13 f hf]

theorem processLfnEntry_mk_last (s : Nat) (f : List Nat) (cs : Nat)
    (frags : List (Nat × List Nat)) (exp : Option Nat)
    (hf : f.length = 13) (hs1 : 1 ≤ s) (hs31 : s ≤ 31) :
    Fat32.processLfnEntry (Fat32.mkLfnEntry s f 64 cs) frags exp =
      ([(s, f)], some cs) := by
  have hc : (s + 64) / 64 % 2 = 1 := by omega
  have hseq : (s + 64) % 32 = s := by omega
  simp only [Fat32.processLfnEntry, Fat32.mkLfnEntry, Fat32.byteToU16Vec,
    List.getD_cons_zero, List.getD_cons_succ, List.drop, List.take,
    Nat.mod_add_div, List.cons_append, List.nil_append]
  rw [if_pos hc]
  simp only [hseq, Fat32.upsertFrag]
  rw [← Fat32.eq_of_length13 f hf]

theorem mkLfnEntry_getD0 (s : Nat) (f : List Nat) (fl cs : Nat) :
    (Fat32.mkLfnEntry s f fl cs).getD 0 0 = s + fl := by
  simp [Fat32.mkLfnEntry]

theorem mkLfnEntry_getD11 (s : Nat) (f : List Nat) (fl cs : Nat) :
    (Fat32.mkLfnEntry s f fl cs).getD 11 0 = 15 := by
  simp [Fat32.mkLfnEntry, List.getD_cons_succ, List.getD_cons_zero]

theorem listDirLoop_lfn_not_last (s : Nat) (f : List Nat) (cs : Nat)
    (rest : List (List Nat)) (frags : List (Nat × List Nat)) (exp : Option Nat)
    (hf : f.length = 13) (hs1 : 1 ≤ s) (hs31 : s ≤ 31) :
    Fat32.listDirLoop (Fat32.mkLfnEntry s f 0 cs :: rest) frags exp =
      Fat32.listDirLoop rest (Fat32.upsertFrag frags s f) exp := by
  simp only [Fat32.listDirLoop, Fat32.mkLfnEntry_getD0, Fat32.mkLfnEntry_getD11,
    Nat.add_zero]
  rw [if_neg (by omega : ¬ (s = 0)), if_neg (by omega : ¬ (s = 229))]
  rw [if_pos trivial, Fat32.processLfnEntry_mk_not_last s f cs frags exp hf hs1 hs31]

theorem listDirLoop_lfn_last (s : Nat) (f : List Nat) (cs : Nat)
    (rest : List (List Nat)) (frags : List (Nat × List Nat)) (exp : Option Nat)
    (hf : f.length = 13) (hs1 : 1 ≤ s) (hs31 : s ≤ 31) :
    Fat32.listDirLoop (Fat32.mkLfnEntry s f 64 cs :: rest) frags exp =
      Fat32.listDirLoop rest [(s, f)] (some cs) := by
  simp only [Fat32.listDirLoop, Fat32.mkLfnEntry_getD0, Fat32.mkLfnEntry_getD11]
  rw [if_neg (by omega : ¬ (s + 64 = 0)), if_neg (by omega : ¬ (s + 64 = 229))]
  rw [if_pos trivial, Fat32.processLfnEntry_mk_last s f cs frags exp hf hs1 hs31]

theorem upsertFrag_of_not_mem (s : Nat) (f : List Nat) :
    ∀ frags : List (Nat × List Nat), (∀ q ∈ frags, s ≠ q.1) →
      Fat32.upsertFrag frags s f = frags ++ [(s, f)] := by
  intro frags
  induction frags with
  | nil => intro _; rfl
  | cons q t ih =>
    intro hq
    have hne : ¬ (q.1 = s) := fun hc => (hq q (by simp)) hc.symm
    cases q with
    | mk qs qf =>
      simp only [Fat32.upsertFrag, if_neg (by simpa using hne), List.cons_append]
      rw [ih (fun r hr => hq r (by simp [hr]))]

theorem listDirLoop_lfn_batch (cs : Nat) :
    ∀ (L frags : List (Nat × List Nat)) (exp : Option Nat) (rest : List (List Nat)),
      (∀ p ∈ L, 1 ≤ p.1 ∧ p.1 ≤ 31 ∧ p.2.length = 13) →
      (∀ p ∈ L, ∀ q ∈ frags, p.1 ≠ q.1) →
      L.Pairwise (fun a b => a.1 ≠ b.1) →
      Fat32.listDirLoop (L.map (fun p => Fat32.mkLfnEntry p.1 p.2 0 cs) ++ rest) frags exp =
        Fat32.listDirLoop rest (frags ++ L) exp := by
  intro L
  induction L with
  | nil => intro frags exp rest _ _ _; simp
  | cons p t ih =>
    intro frags exp rest hbound hdisj hpw
    cases p with
    | mk s f =>
      obtain ⟨hs1, hs31, hf⟩ := hbound (s, f) (by simp)
      simp only [List.map_cons, List.cons_append]
      rw [Fat32.listDirLoop_lfn_not_last s f cs _ frags exp hf hs1 hs31]
      rw [Fat32.upsertFrag_of_not_mem s f frags (fun q hq => hdisj (s, f) (by simp) q hq)]
      rw [ih (frags ++ [(s, f)]) exp rest
        (fun q hq => hbound q (by simp [hq]))
        ?disj (List.Pairwise.sublist (List.sublist_cons_self _ _) hpw)]
      · rw [List.append_assoc]
        rfl
      case disj =>
        intro q hq r hr
        rcases List.mem_append.mp hr with hr1 | hr2
        · exact hdisj q (by simp [hq]) r hr1
        · have : r = (s, f) := by simpa using hr2
          subst this
          have := (List.pairwise_cons.mp hpw).1 q hq
          exact fun hc => this (hc.symm ▸ rfl)

theorem mkSfnEntry_getD0 (sfn : List Nat) (attr hi lo sz : Nat) :
    (Fat32.mkSfnEntry sfn attr hi lo sz).getD 0 0 = sfn.getD 0 0 := by
  simp [Fat32.mkSfnEntry]

theorem mkSfnEntry_getD11 (sfn : List Nat) (attr hi lo sz : Nat) :
    (Fat32.mkSfnEntry sfn attr hi lo sz).getD 11 0 = attr := by
  simp [Fat32.mkSfnEntry, List.getD_cons_succ, List.getD_cons_zero]

theorem mkSfnEntry_take11 (sfn : List Nat) (attr hi lo sz : Nat)
    (hsfn : sfn.length = 11) :
    (Fat32.mkSfnEntry sfn attr hi lo sz).take 11 = sfn := by
  rw [show (Fat32.mkSfnEntry sfn attr hi lo sz).take 11
      = [sfn.getD 0 0, sfn.getD 1 0, sfn.getD 2 0, sfn.getD 3 0, sfn.getD 4 0,
         sfn.getD 5 0, sfn.getD 6 0, sfn.getD 7 0, sfn.getD 8 0, sfn.getD 9 0,
         sfn.getD 10 0] from by simp [Fat32.mkSfnEntry]]
  rw [← Fat32.eq_of_length11 sfn hsfn]

theorem processDataEntry_mkSfn (sfn : List Nat) (attr hi lo sz : Nat)
    (frags : List (Nat × List Nat))
    (hsfn : sfn.length = 11) (hvol : attr / 8 % 2 = 0) (hfrne : frags ≠ []) :
    ∃ fi, Fat32.processDataEntry (Fat32.mkSfnEntry sfn attr hi lo sz) frags
        (some (Fat32.lfnChecksum sfn)) = some fi ∧
      fi.name = (Fat32.assembleLfn frags).getD (Fat32.shortNameToString sfn) := by
  have hempty : frags.isEmpty = false := by
    cases frags with
    | nil => exact absurd rfl hfrne
    | cons a t => rfl
  simp only [Fat32.processDataEntry, Fat32.mkSfnEntry_getD11,
    Fat32.mkSfnEntry_take11 sfn attr hi lo sz hsfn]
  rw [if_neg (by omega : ¬ (attr / 8 % 2 = 1))]
  rw [if_pos ⟨hempty, trivial⟩]
  exact ⟨_, rfl, rfl⟩

theorem listDirLoop_sfn (sfn : List Nat) (attr hi lo sz : Nat)
    (frags : List (Nat × List Nat)) (rest : List (List Nat))
    (hsfn : sfn.length = 11) (h0 : sfn.getD 0 0 ≠ 0) (hE5 : sfn.getD 0 0 ≠ 229)
    (hattr : attr ≠ 15) (hvol : attr / 8 % 2 = 0) (hfrne : frags ≠ []) :
    ∃ fi, Fat32.listDirLoop (Fat32.mkSfnEntry sfn attr hi lo sz :: rest) frags
        (some (Fat32.lfnChecksum sfn)) =
        fi :: Fat32.listDirLoop rest [] none ∧
      fi.name = (Fat32.assembleLfn frags).getD (Fat32.shortNameToString sfn) := by
  obtain ⟨fi, hfi, hname⟩ := Fat32.processDataEntry_mkSfn sfn attr hi lo sz frags hsfn hvol hfrne
  refine ⟨fi, ?_, hname⟩
  simp only [Fat32.listDirLoop, Fat32.mkSfnEntry_getD0, Fat32.mkSfnEntry_getD11]
  rw [if_neg h0, if_neg hE5, if_neg hattr, hfi]

theorem chunksExact32_congr :
    ∀ (f1 f2 : Nat) (data : List Nat), data.length ≤ f1 → data.length ≤ f2 →
      Fat32.chunksExact32 f1 data = Fat32.chunksExact32 f2 data := by
  intro f1
  induction f1 with
  | zero =>
    intro f2 data h1 h2
    have hd : data = [] := List.eq_nil_of_length_eq_zero (by omega)
    subst hd
    cases f2 with
    | zero => rfl
    | succ k => simp [Fat32.chunksExact32]
  | succ f1 ih =>
    intro f2 data h1 h2
    cases f2 with
    | zero =>
      have hd : data = [] := List.eq_nil_of_length_eq_zero (by omega)
      subst hd
      simp [Fat32.chunksExact32]
    | succ k =>
      simp only [Fat32.chunksExact32]
      by_cases h32 : 32 ≤ data.length
      · rw [if_pos h32, if_pos h32,
          ih k (data.drop 32) (by simp; omega) (by simp; omega)]
      · rw [if_neg h32, if_neg h32]

theorem chunks32_cons (c d : List Nat) (hc : c.length = 32) :
    Fat32.chunks32 (c ++ d) = c :: Fat32.chunks32 d := by
  unfold Fat32.chunks32
  have hlen : (c ++ d).length = 32 + d.length := by simp [hc]
  rw [hlen, show 32 + d.length = (31 + d.length) + 1 from by omega]
  simp only [Fat32.chunksExact32]
  rw [if_pos (by simp [hc] : 32 ≤ (c ++ d).length)]
  have htake : (c ++ d).take 32 = c := by rw [← hc]; exact List.take_left c d
  have hdrop : (c ++ d).drop 32 = d := by rw [← hc]; exact List.drop_left c d
  rw [htake, hdrop, Fat32.chunksExact32_congr (31 + d.length) d.length d (by omega) (by omega)]

theorem chunks32_flatten :
    ∀ (L : List (List Nat)) (r : List Nat), (∀ c ∈ L, c.length = 32) →
      Fat32.chunks32 (L.flatten ++ r) = L ++ Fat32.chunks32 r := by
  intro L
  induction L with
  | nil => intro r _; simp
  | cons c t ih =>
    intro r hall
    rw [List.flatten_cons, List.append_assoc,
      Fat32.chunks32_cons c _ (hall c (by simp)), ih r (fun x hx => hall x (by simp [hx]))]
    rfl

theorem insertBySeq_of_lt (x : Nat × List Nat) (acc : List (Nat × List Nat))
    (h : ∀ y ∈ acc, x.1 < y.1) : Fat32.insertBySeq x acc = x :: acc := by
  cases acc with
  | nil => rfl
  | cons y t =>
    have : ¬ (y.1 ≤ x.1) := by
      have := h y (by simp)
      omega
    simp [Fat32.insertBySeq, this]

theorem foldl_insert_desc :
    ∀ (L acc : List (Nat × List Nat)), L.Pairwise (fun a b => b.1 < a.1) →
      (∀ a ∈ L, ∀ b ∈ acc, a.1 < b.1) →
      L.foldl (fun acc x => Fat32.insertBySeq x acc) acc = L.reverse ++ acc := by
  intro L
  induction L with
  | nil => intro acc _ _; simp
  | cons x t ih =>
    intro acc hpw hlt
    simp only [List.foldl_cons]
    rw [Fat32.insertBySeq_of_lt x acc (hlt x (by simp))]
    rw [ih (x :: acc) ((List.pairwise_cons.mp hpw).2) ?ltall]
    · simp
    case ltall =>
      intro a ha b hb
      rcases List.mem_cons.mp hb with hb1 | hb2
      · subst hb1
        exact (List.pairwise_cons.mp hpw).1 a ha
      · exact hlt a (by simp [ha]) b hb2

theorem sortBySeq_of_strictDesc (L : List (Nat × List Nat))
    (h : L.Pairwise (fun a b => b.1 < a.1)) : Fat32.sortBySeq L = L.reverse := by
  have := Fat32.foldl_insert_desc L [] h (by simp)
  simpa [Fat32.sortBySeq] using this

theorem numberedDesc_map_snd :
    ∀ (l : List (List Nat)) (k : Nat), (Fat32.numberedDesc l k).map Prod.snd = l := by
  intro l
  induction l with
  | nil => intro k; rfl
  | cons f t ih => intro k; simp [Fat32.numberedDesc, ih]

theorem numberedDesc_mem_bounds :
    ∀ (l : List (List Nat)) (k : Nat) (p : Nat × List Nat), l.length ≤ k →
      p ∈ Fat32.numberedDesc l k → k + 1 - l.length ≤ p.1 ∧ p.1 ≤ k := by
  intro l
  induction l with
  | nil => intro k p _ hp; exact absurd hp (by simp [Fat32.numberedDesc])
  | cons f t ih =>
    intro k p hk hp
    simp only [Fat32.numberedDesc, List.mem_cons] at hp
    rcases hp with hp1 | hp2
    · subst hp1
      simp only [List.length_cons] at hk
      constructor <;> simp <;> omega
    · have hlen : t.length ≤ k - 1 := by
        simp only [List.length_cons] at hk
        omega
      have := ih (k - 1) p hlen hp2
      simp only [List.length_cons] at hk ⊢
      omega

theorem numberedDesc_pairwise :
    ∀ (l : List (List Nat)) (k : Nat), l.length ≤ k →
      (Fat32.numberedDesc l k).Pairwise (fun a b => b.1 < a.1) := by
  intro l
  induction l with
  | nil => intro k _; simp [Fat32.numberedDesc]
  | cons f t ih =>
    intro k hk
    simp only [List.length_cons] at hk
    simp only [Fat32.numberedDesc, List.pairwise_cons]
    constructor
    · intro q hq
      have := Fat32.numberedDesc_mem_bounds t (k - 1) q (by omega) hq
      omega
    · exact ih (k - 1) (by omega)

theorem numberedDesc_mem_snd (l : List (List Nat)) (k : Nat) (p : Nat × List Nat)
    (hp : p ∈ Fat32.numberedDesc l k) : p.2 ∈ l := by
  have := List.mem_map_of_mem Prod.snd hp
  rwa [Fat32.numberedDesc_map_snd l k] at this

theorem padFrag_length (u : List Nat) (hu : u.length ≤ 13) :
    (Fat32.padFrag u).length = 13 := by
  by_cases h : u.length < 13 <;> simp [Fat32.padFrag, h] <;> omega

theorem fragsOfGo_frag_length :
    ∀ (fuel : Nat) (u : List Nat), u.length ≤ fuel + 13 →
      ∀ f ∈ Fat32.fragsOfGo fuel u, f.length = 13 := by
  intro fuel
  induction fuel with
  | zero =>
    intro u hu f hf
    simp only [Fat32.fragsOfGo, List.mem_singleton] at hf
    subst hf
    exact Fat32.padFrag_length u (by omega)
  | succ fuel ih =>
    intro u hu f hf
    by_cases h13 : u.length ≤ 13
    · simp only [Fat32.fragsOfGo, if_pos h13, List.mem_singleton] at hf
      subst hf
      exact Fat32.padFrag_length u h13
    · simp only [Fat32.fragsOfGo, if_neg h13, List.mem_cons] at hf
      rcases hf with hf1 | hf2
      · subst hf1
        rw [List.length_take]
        omega
      · exact ih (u.drop 13) (by simp; omega) f hf2

theorem fragsOfGo_ne_nil (fuel : Nat) (u : List Nat) : Fat32.fragsOfGo fuel u ≠ [] := by
  cases fuel with
  | zero => simp [Fat32.fragsOfGo]
  | succ k =>
    by_cases h : u.length ≤ 13
    · simp only [Fat32.fragsOfGo, if_pos h]
      simp
    · simp only [Fat32.fragsOfGo, if_neg h]
      simp

theorem fragsOfGo_length_le :
    ∀ (fuel : Nat) (u : List Nat) (m : Nat), 1 ≤ m → u.length ≤ 13 * m →
      (Fat32.fragsOfGo fuel u).length ≤ m := by
  intro fuel
  induction fuel with
  | zero =>
    intro u m hm _
    simp only [Fat32.fragsOfGo, List.length_cons, List.length_nil]
    omega
  | succ fuel ih =>
    intro u m hm hu
    by_cases h13 : u.length ≤ 13
    · simp only [Fat32.fragsOfGo, if_pos h13, List.length_cons, List.length_nil]
      omega
    · have hm2 : 2 ≤ m := by
        by_contra hc
        have : m = 1 := by omega
        subst this
        omega
      simp only [Fat32.fragsOfGo, if_neg h13, List.length_cons]
      have := ih (u.drop 13) (m - 1) (by omega) (by simp; omega)
      omega

theorem takeFragChars_all (u : List Nat) (h : ∀ x ∈ u, x ≠ 0 ∧ x ≠ 65535) :
    Fat32.takeFragChars u = u := by
  induction u with
  | nil => rfl
  | cons x t ih =>
    obtain ⟨h0, hF⟩ := h x (by simp)
    simp only [Fat32.takeFragChars, if_neg h0, if_neg hF]
    rw [ih (fun y hy => h y (by simp [hy]))]

theorem takeFragChars_append_zero (z : List Nat) :
    ∀ u : List Nat, (∀ x ∈ u, x ≠ 0 ∧ x ≠ 65535) →
      Fat32.takeFragChars (u ++ 0 :: z) = u := by
  intro u
  induction u with
  | nil => intro _; simp [Fat32.takeFragChars]
  | cons x t ih =>
    intro h
    obtain ⟨h0, hF⟩ := h x (by simp)
    simp only [List.cons_append, Fat32.takeFragChars, if_neg h0, if_neg hF]
    exact congrArg (List.cons x) (ih (fun y hy => h y (by simp [hy])))

theorem takeFragChars_padFrag (u : List Nat) (hu : u.length ≤ 13)
    (h : ∀ x ∈ u, x ≠ 0 ∧ x ≠ 65535) : Fat32.takeFragChars (Fat32.padFrag u) = u := by
  by_cases hlt : u.length < 13
  · simp only [Fat32.padFrag, if_pos hlt]
    exact Fat32.takeFragChars_append_zero _ u h
  · simp only [Fat32.padFrag, if_neg hlt, List.append_nil]
    exact Fat32.takeFragChars_all u h

theorem fragsOfGo_flat :
    ∀ (fuel : Nat) (u : List Nat), u.length ≤ fuel + 13 →
      (∀ x ∈ u, x ≠ 0 ∧ x ≠ 65535) →
      (Fat32.fragsOfGo fuel u).flatMap Fat32.takeFragChars = u := by
  intro fuel
  induction fuel with
  | zero =>
    intro u hu hgood
    simp only [Fat32.fragsOfGo, List.flatMap_cons, List.flatMap_nil, List.append_nil]
    exact Fat32.takeFragChars_padFrag u (by omega) hgood
  | succ fuel ih =>
    intro u hu hgood
    by_cases h13 : u.length ≤ 13
    · simp only [Fat32.fragsOfGo, if_pos h13, List.flatMap_cons, List.flatMap_nil,
        List.append_nil]
      exact Fat32.takeFragChars_padFrag u h13 hgood
    · simp only [Fat32.fragsOfGo, if_neg h13, List.flatMap_cons]
      rw [Fat32.takeFragChars_all (u.take 13)
        (fun x hx => hgood x (List.take_subset 13 u hx))]
      rw [ih (u.drop 13) (by simp; omega) (fun x hx => hgood x (List.drop_subset 13 u hx))]
      exact List.take_append_drop 13 u

theorem fragsOf_flat (u : List Nat) (hgood : ∀ x ∈ u, x ≠ 0 ∧ x ≠ 65535) :
    (Fat32.fragsOf u).flatMap Fat32.takeFragChars = u :=
  Fat32.fragsOfGo_flat u.length u (by omega) hgood

set_option maxRecDepth 4000 in
theorem utf16EncodeChar_good (c : Nat)
    (hval : c < 55296 ∨ (57344 ≤ c ∧ c < 1114112)) (h0 : c ≠ 0) (hF : c ≠ 65535) :
    ∀ x ∈ Fat32.utf16EncodeChar c, x ≠ 0 ∧ x ≠ 65535 := by
  intro x hx
  by_cases hbmp : c < 65536
  · simp only [Fat32.utf16EncodeChar, if_pos hbmp, List.mem_singleton] at hx
    subst hx
    exact ⟨h0, hF⟩
  · simp only [Fat32.utf16EncodeChar, if_neg hbmp, List.mem_cons,
      List.mem_singleton] at hx
    have hc : c < 1114112 := by omega
    have hx2 : x = 55296 + (c - 65536) / 1024 ∨ x = 56320 + (c - 65536) % 1024 := by
      rcases hx with h | h
      · exact Or.inl h
      · rcases h with h | h
        · exact Or.inr h
        · exact absurd h (by simp)
    rcases hx2 with h | h
    · exact ⟨by omega, by omega⟩
    · exact ⟨by omega, by omega⟩

theorem utf16Encode_good (s : List Nat)
    (hsc : ∀ c ∈ s, (c < 55296 ∨ (57344 ≤ c ∧ c < 1114112)) ∧ c ≠ 0 ∧ c ≠ 65535) :
    ∀ x ∈ Fat32.utf16Encode s, x ≠ 0 ∧ x ≠ 65535 := by
  intro x hx
  obtain ⟨c, hc, hcx⟩ := List.mem_flatMap.mp hx
  obtain ⟨hval, h0, hF⟩ := hsc c hc
  exact Fat32.utf16EncodeChar_good c hval h0 hF x hcx

theorem utf16Decode_cons (u : Nat) (rest : List Nat) :
    Fat32.utf16Decode (u :: rest) =
      if u < 55296 ∨ 57344 ≤ u then (Fat32.utf16Decode rest).map (fun s => u :: s)
      else if u < 56320 then
        match rest with
        | [] => none
        | l :: rest2 =>
          if 56320 ≤ l ∧ l < 57344 then
            (Fat32.utf16Decode rest2).map
              (fun s => (65536 + (u - 55296) * 1024 + (l - 56320)) :: s)
          else none
      else none := by
  cases rest <;> rfl

theorem utf16Decode_cons2 (u l : Nat) (rest2 : List Nat)
    (h1 : ¬ (u < 55296 ∨ 57344 ≤ u)) (h2 : u < 56320) :
    Fat32.utf16Decode (u :: l :: rest2) =
      if 56320 ≤ l ∧ l < 57344 then
        (Fat32.utf16Decode rest2).map
          (fun s => (65536 + (u - 55296) * 1024 + (l - 56320)) :: s)
      else none := by
  rw [Fat32.utf16Decode_cons, if_neg h1, if_pos h2]

theorem utf16Decode_encode :
    ∀ s : List Nat, (∀ c ∈ s, c < 55296 ∨ (57344 ≤ c ∧ c < 1114112)) →
      Fat32.utf16Decode (Fat32.utf16Encode s) = some s := by
  intro s
  induction s with
  | nil => intro _; rfl
  | cons c t ih =>
    intro hval
    have hc := hval c (by simp)
    have hrec := ih (fun x hx => hval x (by simp [hx]))
    by_cases hbmp : c < 65536
    · have henc : Fat32.utf16Encode (c :: t) = c :: Fat32.utf16Encode t := by
        simp [Fat32.utf16Encode, Fat32.utf16EncodeChar, hbmp]
      rw [henc, Fat32.utf16Decode_cons]
      rw [if_pos (by omega : c < 55296 ∨ 57344 ≤ c)]
      rw [hrec]
      rfl
    · have hsup : 57344 ≤ c ∧ c < 1114112 := by omega
      have henc : Fat32.utf16Encode (c :: t) =
          (55296 + (c - 65536) / 1024) :: (56320 + (c - 65536) % 1024) ::
            Fat32.utf16Encode t := by
        simp [Fat32.utf16Encode, Fat32.utf16EncodeChar, hbmp]
      rw [henc]
      have hdivlt : (c - 65536) / 1024 < 1024 := by omega
      have hmodlt : (c - 65536) % 1024 < 1024 := by omega
      rw [Fat32.utf16Decode_cons2 _ _ _ (by omega) (by omega)]
      rw [if_pos (by omega : 56320 ≤ 56320 + (c - 65536) % 1024 ∧
        56320 + (c - 65536) % 1024 < 57344)]
      rw [hrec]
      have heq : 65536 + (55296 + (c - 65536) / 1024 - 55296) * 1024 +
          (56320 + (c - 65536) % 1024 - 56320) = c := by
        have hdm := Nat.div_add_mod (c - 65536) 1024
        omega
      show some ((65536 + (55296 + (c - 65536) / 1024 - 55296) * 1024 +
        (56320 + (c - 65536) % 1024 - 56320)) :: t) = some (c :: t)
      rw [heq]

theorem mkLfnEntry_length (s : Nat) (f : List Nat) (fl cs : Nat) :
    (Fat32.mkLfnEntry s f fl cs).length = 32 := rfl

theorem mkSfnEntry_length (sfn : List Nat) (attr hi lo sz : Nat) :
    (Fat32.mkSfnEntry sfn attr hi lo sz).length = 32 := rfl

theorem numberedDesc_ne_nil (l : List (List Nat)) (k : Nat) (h : l ≠ []) :
    Fat32.numberedDesc l k ≠ [] := by
  cases l with
  | nil => exact absurd rfl h
  | cons f t => simp [Fat32.numberedDesc]

theorem flatMap_snd (l : List (Nat × List Nat)) (g : List Nat → List Nat) :
    l.flatMap (fun p => g p.2) = (l.map Prod.snd).flatMap g := by
  induction l with
  | nil => rfl
  | cons p t ih => simp [ih]

theorem assembleLfn_numberedDesc (units : List Nat)
    (hgood : ∀ x ∈ units, x ≠ 0 ∧ x ≠ 65535) :
    Fat32.assembleLfn
        (Fat32.numberedDesc (Fat32.fragsOf units).reverse (Fat32.fragsOf units).length) =
      (Fat32.utf16Decode units).map Fat32.utf8Encode := by
  have hfne : Fat32.fragsOf units ≠ [] := Fat32.fragsOfGo_ne_nil _ _
  have hDne : Fat32.numberedDesc (Fat32.fragsOf units).reverse
      (Fat32.fragsOf units).length ≠ [] :=
    Fat32.numberedDesc_ne_nil _ _ (by simpa using hfne)
  have hDempty : (Fat32.numberedDesc (Fat32.fragsOf units).reverse
      (Fat32.fragsOf units).length).isEmpty = false := by
    cases hD : Fat32.numberedDesc (Fat32.fragsOf units).reverse
        (Fat32.fragsOf units).length with
    | nil => exact absurd hD hDne
    | cons a t => rfl
  have hpw := Fat32.numberedDesc_pairwise (Fat32.fragsOf units).reverse
    (Fat32.fragsOf units).length (by simp)
  unfold Fat32.assembleLfn
  rw [if_neg (by simp [hDempty])]
  rw [Fat32.sortBySeq_of_strictDesc _ hpw]
  rw [Fat32.flatMap_snd, List.map_reverse, Fat32.numberedDesc_map_snd,
    List.reverse_reverse, Fat32.fragsOf_flat units hgood]

end Fat32

/-- C5: LFN round-trip.  For every well-formed on-disk LFN entry sequence
(the encoder `encodeLfnDir`: at most 31 fragments, i.e. a name of at most
403 UTF-16 code units, over any scalars free of `U+0000`/`U+FFFF`)
whose checksum byte is computed by `lfn_checksum` from the 11-byte short
name of the standard entry that follows, and for every volume and cluster
whose data starts with that sequence, `list_directory_entries` emits
first a `FileInfo` whose name is exactly the encoded name. -/
theorem Fat32.c5_lfn_roundtrip (scalars sfn : List Nat) (attr hi lo sz : Nat)
    (rest : List Nat) (fs : Fat32.Fat32FileSystem) (cluster : Nat)
    (hsc : ∀ c ∈ scalars, (c < 55296 ∨ (57344 ≤ c ∧ c < 1114112)) ∧ c ≠ 0 ∧ c ≠ 65535)
    (hlen : (Fat32.utf16Encode scalars).length ≤ 403)
    (hsfn : sfn.length = 11) (h0 : sfn.getD 0 0 ≠ 0) (hE5 : sfn.getD 0 0 ≠ 229)
    (hattr : attr ≠ 15) (hvol : attr / 8 % 2 = 0)
    (hread : Fat32.readCluster fs cluster =
      Except.ok (Fat32.encodeLfnDir scalars sfn attr hi lo sz ++ rest)) :
    ∃ fi t, Fat32.listDirectoryEntries fs cluster = Except.ok (fi :: t) ∧
      fi.name = Fat32.utf8Encode scalars := by
  have hgood : ∀ x ∈ Fat32.utf16Encode scalars, x ≠ 0 ∧ x ≠ 65535 :=
    Fat32.utf16Encode_good scalars hsc
  have hfne : Fat32.fragsOf (Fat32.utf16Encode scalars) ≠ [] :=
    Fat32.fragsOfGo_ne_nil _ _
  obtain ⟨fk, tail, hrev⟩ :
      ∃ fk tail, (Fat32.fragsOf (Fat32.utf16Encode scalars)).reverse = fk :: tail :=
    List.exists_cons_of_ne_nil (by simpa using hfne)
  have hklen : (Fat32.fragsOf (Fat32.utf16Encode scalars)).length = tail.length + 1 := by
    have := congrArg List.length hrev
    simpa using this
  have hk1 : 1 ≤ (Fat32.fragsOf (Fat32.utf16Encode scalars)).length := by omega
  have hk31 : (Fat32.fragsOf (Fat32.utf16Encode scalars)).length ≤ 31 :=
    Fat32.fragsOfGo_length_le _ _ 31 (by omega) (by omega)
  have hfraglen : ∀ f ∈ Fat32.fragsOf (Fat32.utf16Encode scalars), f.length = 13 :=
    Fat32.fragsOfGo_frag_length _ _ (by omega)
  have hfk_len : fk.length = 13 := by
    apply hfraglen
    have : fk ∈ (Fat32.fragsOf (Fat32.utf16Encode scalars)).reverse := by
      rw [hrev]; simp
    simpa using this
  have htail_mem : ∀ f ∈ tail, f ∈ Fat32.fragsOf (Fat32.utf16Encode scalars) := by
    intro f hf
    have : f ∈ (Fat32.fragsOf (Fat32.utf16Encode scalars)).reverse := by
      rw [hrev]; simp [hf]
    simpa using this
  have htail_le : tail.length ≤ (Fat32.fragsOf (Fat32.utf16Encode scalars)).length - 1 := by
    omega
  have hD : Fat32.numberedDesc (Fat32.fragsOf (Fat32.utf16Encode scalars)).reverse
      (Fat32.fragsOf (Fat32.utf16Encode scalars)).length =
      ((Fat32.fragsOf (Fat32.utf16Encode scalars)).length, fk) ::
        Fat32.numberedDesc tail
          ((Fat32.fragsOf (Fat32.utf16Encode scalars)).length - 1) := by
    rw [hrev]
    rfl
  have hentries : Fat32.lfnEntries (Fat32.utf16Encode scalars) (Fat32.lfnChecksum sfn) =
      Fat32.mkLfnEntry (Fat32.fragsOf (Fat32.utf16Encode scalars)).length fk 64
          (Fat32.lfnChecksum sfn) ::
        (Fat32.numberedDesc tail
            ((Fat32.fragsOf (Fat32.utf16Encode scalars)).length - 1)).map
          (fun p => Fat32.mkLfnEntry p.1 p.2 0 (Fat32.lfnChecksum sfn)) := by
    unfold Fat32.lfnEntries
    rw [hD]
  have hchunks : Fat32.chunks32 (Fat32.encodeLfnDir scalars sfn attr hi lo sz ++ rest) =
      Fat32.mkLfnEntry (Fat32.fragsOf (Fat32.utf16Encode scalars)).length fk 64
          (Fat32.lfnChecksum sfn) ::
        ((Fat32.numberedDesc tail
            ((Fat32.fragsOf (Fat32.utf16Encode scalars)).length - 1)).map
          (fun p => Fat32.mkLfnEntry p.1 p.2 0 (Fat32.lfnChecksum sfn)) ++
          (Fat32.mkSfnEntry sfn attr hi lo sz :: Fat32.chunks32 rest)) := by
    unfold Fat32.encodeLfnDir
    rw [hentries]
    have hform : (Fat32.mkLfnEntry (Fat32.fragsOf (Fat32.utf16Encode scalars)).length fk 64
          (Fat32.lfnChecksum sfn) ::
        (Fat32.numberedDesc tail
            ((Fat32.fragsOf (Fat32.utf16Encode scalars)).length - 1)).map
          (fun p => Fat32.mkLfnEntry p.1 p.2 0 (Fat32.lfnChecksum sfn))).flatten ++
        Fat32.mkSfnEntry sfn attr hi lo sz ++ rest =
        ((Fat32.mkLfnEntry (Fat32.fragsOf (Fat32.utf16Encode scalars)).length fk 64
          (Fat32.lfnChecksum sfn) ::
        (Fat32.numberedDesc tail
            ((Fat32.fragsOf (Fat32.utf16Encode scalars)).length - 1)).map
          (fun p => Fat32.mkLfnEntry p.1 p.2 0 (Fat32.lfnChecksum sfn))) ++
          [Fat32.mkSfnEntry sfn attr hi lo sz]).flatten ++ rest := by
      simp [List.flatten_append, List.append_assoc]
    rw [hform, Fat32.chunks32_flatten _ rest ?h32]
    · simp
    case h32 =>
      intro c hc
      rcases List.mem_append.mp hc with hc1 | hc2
      · rcases List.mem_cons.mp hc1 with hc3 | hc4
        · subst hc3; rfl
        · obtain ⟨p, _, hp⟩ := List.mem_map.mp hc4
          subst hp; rfl
      · have : c = Fat32.mkSfnEntry sfn attr hi lo sz := by simpa using hc2
        subst this; rfl
  simp only [Fat32.listDirectoryEntries, hread, Except.map]
  rw [hchunks]
  rw [Fat32.listDirLoop_lfn_last _ fk (Fat32.lfnChecksum sfn) _ [] none hfk_len hk1 hk31]
  rw [Fat32.listDirLoop_lfn_batch (Fat32.lfnChecksum sfn)
    (Fat32.numberedDesc tail ((Fat32.fragsOf (Fat32.utf16Encode scalars)).length - 1))
    [((Fat32.fragsOf (Fat32.utf16Encode scalars)).length, fk)] (some (Fat32.lfnChecksum sfn))
    (Fat32.mkSfnEntry sfn attr hi lo sz :: Fat32.chunks32 rest)
    ?hb1 ?hb2 ?hb3]
  case hb1 =>
    intro p hp
    have hb := Fat32.numberedDesc_mem_bounds tail _ p htail_le hp
    have hs := Fat32.numberedDesc_mem_snd tail _ p hp
    exact ⟨by omega, by omega, hfraglen p.2 (htail_mem p.2 hs)⟩
  case hb2 =>
    intro p hp q hq
    have hb := Fat32.numberedDesc_mem_bounds tail _ p htail_le hp
    have : q = ((Fat32.fragsOf (Fat32.utf16Encode scalars)).length, fk) := by simpa using hq
    subst this
    simp only []
    omega
  case hb3 =>
    exact (Fat32.numberedDesc_pairwise tail _ htail_le).imp (fun h => by omega)
  have hcons : ([((Fat32.fragsOf (Fat32.utf16Encode scalars)).length, fk)] ++
      Fat32.numberedDesc tail ((Fat32.fragsOf (Fat32.utf16Encode scalars)).length - 1)) =
      Fat32.numberedDesc (Fat32.fragsOf (Fat32.utf16Encode scalars)).reverse
        (Fat32.fragsOf (Fat32.utf16Encode scalars)).length := by
    rw [hD]
    rfl
  rw [hcons]
  obtain ⟨fi, hfi, hname⟩ := Fat32.listDirLoop_sfn sfn attr hi lo sz
    (Fat32.numberedDesc (Fat32.fragsOf (Fat32.utf16Encode scalars)).reverse
      (Fat32.fragsOf (Fat32.utf16Encode scalars)).length)
    (Fat32.chunks32 rest) hsfn h0 hE5 hattr hvol
    (Fat32.numberedDesc_ne_nil _ _ (by simpa using hfne))
  rw [hfi]
  refine ⟨fi, _, rfl, ?_⟩
  rw [hname, Fat32.assembleLfn_numberedDesc _ hgood,
    Fat32.utf16Decode_encode scalars (fun c hc => (hsc c hc).1)]
  rfl

set_option maxRecDepth 100000 in
/-- C5 witness: the round trip evaluated on the concrete volume `c5Fs`,
whose root cluster carries the one-character name `A`. -/
theorem Fat32.c5_lfn_roundtrip_witness :
    ∃ fi t, Fat32.listDirectoryEntries Fat32.c5Fs 2 = Except.ok (fi :: t) ∧
      fi.name = Fat32.utf8Encode [65] :=
  Fat32.c5_lfn_roundtrip [65] (65 :: List.replicate 10 32) 32 0 5 0 [] Fat32.c5Fs 2
    (by decide) (by decide) (by decide) (by decide) (by decide) (by decide) (by decide)
    (by decide)
